import Mathlib

/-!
Shallow embedding of `tigramite/independence_tests/pairwise_CI.py`
(class `PairwiseMultCI`), the multivariate conditional-independence test
that aggregates univariate tests.

Matrices are lists of rows over `ℚ`.  The observation `array` has one row
per variable and one column per time point; the optional `data_type`
matrix has the same orientation.  The univariate CI engine
(`cond_ind_test`, an external collaborator) is modelled as a pure
function `run` mirroring `run_test_raw`: it receives the x, y, z blocks
(time × variable orientation, as produced by the numpy `reshape` calls in
the source), the optional type-tag blocks, and the optional
`alpha_or_thres` argument, and returns the pair (statistic, p-value).
-/

namespace PairwiseCI

abbrev Mat := List (List ℚ)

/-- Number of columns of a matrix (length of its first row), as used for
`array.shape[1]` on a rectangular array. -/
def ncols (m : Mat) : ℕ := (m.headD []).length

/-- Auxiliary for `reshape`: split a flat list into `r` rows of `c`
entries each (row-major), mirroring numpy's reinterpretation of the
underlying buffer. -/
def chunksAux : ℕ → ℕ → List ℚ → Mat
  | 0, _, _ => []
  | r + 1, c, l => l.take c :: chunksAux r c (l.drop c)

/-- numpy `m.reshape(r, c)`: row-major flatten, then regroup into `r`
rows of `c` entries.  (All call sites in the source pass the exact
element count, so no error case is modelled.) -/
def reshape (m : Mat) (r c : ℕ) : Mat := chunksAux r c m.flatten

/-- numpy `np.hstack((a, b))` for two blocks with equal row counts. -/
def hstack (a b : Mat) : Mat := List.zipWith (· ++ ·) a b

/-- Row selection `m[idxs]` by a list of row indices. -/
def selectRows (m : Mat) (idxs : List ℕ) : Mat := idxs.map (fun i => m.getD i [])

/-- Column selection `m[:, idxs]`. -/
def selectCols (m : Mat) (idxs : List ℕ) : Mat :=
  m.map (fun row => idxs.map (fun i => row.getD i 0))

/-- numpy `.T` on a rectangular matrix. -/
def transposeM (m : Mat) : Mat :=
  (List.range (ncols m)).map (fun i => m.map (fun row => row.getD i 0))

/-- `np.where(xs == v)[0]`: the indices at which the value `v` occurs. -/
def npWhere (xs : List ℕ) (v : ℕ) : List ℕ :=
  (xs.enum.filter (fun p => p.2 == v)).map (·.1)

/-- `np.max` over a (flattened) list: `none` models the numpy error on an
empty array. -/
def listMax : List ℚ → Option ℚ
  | [] => none
  | q :: l =>
    some (match listMax l with
          | none => q
          | some m => max q m)

/-- `np.min` over a (flattened) list: `none` models the numpy error on an
empty array. -/
def listMin : List ℚ → Option ℚ
  | [] => none
  | q :: l =>
    some (match listMin l with
          | none => q
          | some m => min q m)

/-- The univariate CI engine collaborator (`self.cond_ind_test`): a
significance-regime tag plus the `run_test_raw` capability.  Arguments of
`run`: x-block, y-block, z-block, x_type, y_type, z_type,
`alpha_or_thres` (passed as `some 999` in the fixed-threshold regime,
absent otherwise); result: (statistic, p-value). -/
structure Engine where
  significance : String
  run : Mat → Mat → Mat → Option Mat → Option Mat → Option Mat → Option ℚ → ℚ × ℚ

/-- Errors surfaced by the evaluation: `valueError` models a Python
`ValueError` (including numpy's error on `np.max` of an empty array);
`attributeError` models access to a never-assigned attribute. -/
inductive Err
  | valueError
  | attributeError
deriving DecidableEq

/-- The state of a `PairwiseMultCI` object.  `dep_measure`/`signif` are
`none` while the corresponding attribute has never been assigned;
`signif = some none` models `self.signif = None` (the fixed-threshold
regime stores Python `None`). -/
structure PairwiseMultCI where
  measure : String
  cond_ind_test : Engine
  alpha_pre : ℚ
  pre_step_sample_fraction : ℚ
  fixed_thres_pre : Option ℚ
  two_sided : Bool
  significance : String
  dep_measure : Option ℚ
  signif : Option (Option ℚ)

/-- `PairwiseMultCI.__init__`: stores the configuration without any
validation (in particular `fixed_thres_pre` is not checked here). -/
def PairwiseMultCI.init (cond_ind_test : Engine) (alpha_pre pre_step_sample_fraction : ℚ)
    (fixed_thres_pre : Option ℚ) (significance : String) : PairwiseMultCI :=
  { measure := "pairwise_CI"
    cond_ind_test := cond_ind_test
    alpha_pre := alpha_pre
    pre_step_sample_fraction := pre_step_sample_fraction
    fixed_thres_pre := fixed_thres_pre
    two_sided := false
    significance := significance
    dep_measure := none
    signif := none }

/-- Lines 109–115 of the source: determine `fixed_thres_bool` and force
both significance tags to `"fixed_thres"` when either one is it.  The two
`if` statements run sequentially, so the second one observes the mutation
made by the first. -/
def resolveRegime (s : PairwiseMultCI) : Bool × PairwiseMultCI :=
  let p1 : Bool × PairwiseMultCI :=
    if s.significance = "fixed_thres" then
      (true, { s with cond_ind_test := { s.cond_ind_test with significance := "fixed_thres" } })
    else (false, s)
  if p1.2.cond_ind_test.significance = "fixed_thres" then
    (true, { p1.2 with significance := "fixed_thres" })
  else (p1.1, p1.2)

/-- The split data computed in lines 121–169: role-index extraction, the
column split of the observation array at
`size_first_block = floor(pre_step_sample_fraction * T)`, and the
row-aligned split of the transposed type-tag matrices. -/
structure SplitData where
  dim_x : ℕ
  dim_y : ℕ
  dim_z : ℕ
  T : ℕ
  sfb : ℕ
  x_s1 : Mat
  y_s1 : Mat
  z_s1 : Mat
  x_s2 : Mat
  y_s2 : Mat
  z_s2 : Mat
  x_type_s1 : Option Mat
  y_type_s1 : Option Mat
  z_type_s1 : Option Mat
  x_type_s2 : Option Mat
  y_type_s2 : Option Mat
  z_type_s2 : Option Mat

def mkSplit (array : Mat) (xyz : List ℕ) (data_type : Option Mat) (frac : ℚ) : SplitData :=
  let x_indices := npWhere xyz 0
  let y_indices := npWhere xyz 1
  let z_indices := npWhere xyz 2
  let T := ncols array
  let sfb := (⌊frac * (T : ℚ)⌋).toNat
  let array_s1 := array.map (fun r => r.take sfb)
  let array_s2 := array.map (fun r => r.drop sfb)
  let x_type := data_type.map (fun dt => transposeM (selectRows dt x_indices))
  let y_type := data_type.map (fun dt => transposeM (selectRows dt y_indices))
  let z_type := data_type.map (fun dt => transposeM (selectRows dt z_indices))
  { dim_x := x_indices.length
    dim_y := y_indices.length
    dim_z := z_indices.length
    T := T
    sfb := sfb
    x_s1 := selectRows array_s1 x_indices
    y_s1 := selectRows array_s1 y_indices
    z_s1 := selectRows array_s1 z_indices
    x_s2 := selectRows array_s2 x_indices
    y_s2 := selectRows array_s2 y_indices
    z_s2 := selectRows array_s2 z_indices
    x_type_s1 := x_type.map (fun m => m.take sfb)
    y_type_s1 := y_type.map (fun m => m.take sfb)
    z_type_s1 := z_type.map (fun m => m.take sfb)
    x_type_s2 := x_type.map (fun m => m.drop sfb)
    y_type_s2 := y_type.map (fun m => m.drop sfb)
    z_type_s2 := z_type.map (fun m => m.drop sfb) }

/-- Step 1 (lines 171–192): the pre-step matrix.  In the p-value regime
(`ftb = false`) the entries are the engine p-values; in the
fixed-threshold regime they are the engine statistics obtained with the
dummy `alpha_or_thres = 999`. -/
def preMatrix (eng : Engine) (ftb : Bool) (d : SplitData) : Mat :=
  (List.range d.dim_x).map (fun j =>
    (List.range d.dim_y).map (fun jj =>
      if ftb = false then
        (eng.run (reshape [d.x_s1.getD j []] d.sfb 1)
                 (reshape [d.y_s1.getD jj []] d.sfb 1)
                 (reshape d.z_s1 d.sfb d.dim_z)
                 d.x_type_s1 d.y_type_s1 d.z_type_s1 none).2
      else
        (eng.run (reshape [d.x_s1.getD j []] d.sfb 1)
                 (reshape [d.y_s1.getD jj []] d.sfb 1)
                 (reshape d.z_s1 d.sfb d.dim_z)
                 d.x_type_s1 d.y_type_s1 d.z_type_s1 (some 999)).1))

/-- The per-pair classification test of lines 193–196.  P-value regime:
pre-step p-value strictly greater than `alpha_pre`.  Fixed-threshold
regime: absolute pre-step statistic at least `fixed_thres_pre`. -/
def preTest (alpha thres : ℚ) (ftb : Bool) (pre : Mat) (j jj : ℕ) : Bool :=
  if ftb = false then decide (alpha < (pre.getD j []).getD jj 0)
  else decide (thres ≤ |(pre.getD j []).getD jj 0|)

/-- Lines 193–196: the independence set, as the row-major list of index
pairs produced by `np.where` on the thresholded pre-step matrix. -/
def indepSet (alpha thres : ℚ) (ftb : Bool) (pre : Mat) (dim_x dim_y : ℕ) :
    List (ℕ × ℕ) :=
  (List.range dim_x).flatMap (fun j =>
    ((List.range dim_y).filter (fun jj =>
      preTest alpha thres ftb pre j jj)).map (fun jj => (j, jj)))

/-- Lines 207–212: `indicesY` — the Y-components found independent of
X-component `j`, excluding `jj` itself.  (The list produced by
`np.setdiff1d` is this filter: the candidate values are already sorted
and duplicate-free, being drawn from the row-major `np.where` output at
fixed first component.) -/
def indicesY (iset : List (ℕ × ℕ)) (j jj : ℕ) : List ℕ :=
  if (iset.map Prod.fst).contains j then
    ((iset.filter (fun p => p.1 == j)).map Prod.snd).filter (fun y => y != jj)
  else []

/-- Lines 213–215: `indicesX` — the X-components found independent of
Y-component `jj`, excluding `j` itself. -/
def indicesX (iset : List (ℕ × ℕ)) (j jj : ℕ) : List ℕ :=
  if (iset.map Prod.snd).contains jj then
    ((iset.filter (fun p => p.2 == jj)).map Prod.fst).filter (fun x => x != j)
  else []

/-- One main-step pair evaluation (lines 205–279), with the current value
of the (mutable) `z_type_s2` threaded in and the possibly updated value
threaded out.  Faithful to the source: in the `lix > liy` branch the
augmented type tags computed into the local `z_type` are dead and the
engine receives the current `z_type_s2` unchanged; in the `lix ≤ liy`
branch `z_type_s2` itself is overwritten with the augmented matrix before
the engine call, and the overwritten value persists for later pairs. -/
def mainCell (eng : Engine) (ftb : Bool) (d : SplitData) (iset : List (ℕ × ℕ))
    (j jj : ℕ) (ztype : Option Mat) : (ℚ × ℚ) × Option Mat :=
  let iY := indicesY iset j jj
  let iX := indicesX iset j jj
  let lix := iX.length
  let liy := iY.length
  let Tm := d.T - d.sfb
  let xblk := reshape [d.x_s2.getD j []] Tm 1
  let yblk := reshape [d.y_s2.getD jj []] Tm 1
  let zblk := reshape d.z_s2 Tm d.dim_z
  let thresArg : Option ℚ := if ftb then some 999 else none
  if lix + liy > 0 then
    if lix > liy then
      ((eng.run xblk yblk (hstack zblk (reshape (selectRows d.x_s2 iX) Tm lix))
          d.x_type_s2 d.y_type_s2 ztype thresArg), ztype)
    else
      let ztype' : Option Mat :=
        match d.y_type_s2 with
        | some yt => some (hstack (ztype.getD []) (selectCols yt iY))
        | none => ztype
      ((eng.run xblk yblk (hstack zblk (reshape (selectRows d.y_s2 iY) Tm liy))
          d.x_type_s2 d.y_type_s2 ztype' thresArg), ztype')
  else
    ((eng.run xblk yblk zblk d.x_type_s2 d.y_type_s2 ztype thresArg), ztype)

/-- One row of the main-step double loop: fold over `jj`, threading the
mutable `z_type_s2` and collecting the (statistic, p-value) cells. -/
def mainRow (eng : Engine) (ftb : Bool) (d : SplitData) (iset : List (ℕ × ℕ))
    (j : ℕ) (ztype0 : Option Mat) : List (ℚ × ℚ) × Option Mat :=
  (List.range d.dim_y).foldl
    (fun acc jj =>
      let r := mainCell eng ftb d iset j jj acc.2
      (acc.1 ++ [r.1], r.2))
    ([], ztype0)

/-- The whole main-step double loop (lines 205–279): list of rows of
(statistic, p-value) cells, plus the final value of `z_type_s2`. -/
def mainAll (eng : Engine) (ftb : Bool) (d : SplitData) (iset : List (ℕ × ℕ)) :
    List (List (ℚ × ℚ)) × Option Mat :=
  (List.range d.dim_x).foldl
    (fun acc j =>
      let r := mainRow eng ftb d iset j acc.2
      (acc.1 ++ [r.1], r.2))
    ([], d.z_type_s2)

/-- The full pipeline after regime resolution, producing the main-step
cell matrix (and final `z_type_s2`) for a resolved state `s'` with regime
flag `ftb`. -/
def pipeline (s' : PairwiseMultCI) (ftb : Bool) (array : Mat) (xyz : List ℕ)
    (data_type : Option Mat) : List (List (ℚ × ℚ)) × Option Mat :=
  let d := mkSplit array xyz data_type s'.pre_step_sample_fraction
  mainAll s'.cond_ind_test ftb d
    (indepSet s'.alpha_pre (s'.fixed_thres_pre.getD 0) ftb
      (preMatrix s'.cond_ind_test ftb d) d.dim_x d.dim_y)

/-- The main-step cell matrix computed by an evaluation starting from
(unresolved) state `s`. -/
def mainCellsOf (s : PairwiseMultCI) (array : Mat) (xyz : List ℕ)
    (data_type : Option Mat) : List (List (ℚ × ℚ)) :=
  (pipeline (resolveRegime s).2 (resolveRegime s).1 array xyz data_type).1

/-- `test_stats_main` of an evaluation starting from state `s`. -/
def testStatsMain (s : PairwiseMultCI) (array : Mat) (xyz : List ℕ)
    (data_type : Option Mat) : Mat :=
  (mainCellsOf s array xyz data_type).map (fun r => r.map Prod.fst)

/-- `p_vals_main` of an evaluation starting from state `s` (meaningful in
the p-value regime). -/
def pValsMain (s : PairwiseMultCI) (array : Mat) (xyz : List ℕ)
    (data_type : Option Mat) : Mat :=
  (mainCellsOf s array xyz data_type).map (fun r => r.map Prod.snd)

/-- `calculate_dep_measure_and_significance` (lines 83–289).  Returns the
pair (aggregated statistic, aggregated p-value or Python `None`) together
with the state of the object after the call (its significance tags may
have been overwritten by the regime resolution). -/
def calculate (s : PairwiseMultCI) (array : Mat) (xyz : List ℕ)
    (data_type : Option Mat) : Except Err ((ℚ × Option ℚ) × PairwiseMultCI) :=
  let ftb := (resolveRegime s).1
  let s' := (resolveRegime s).2
  if ftb && s'.fixed_thres_pre.isNone then
    .error .valueError
  else
    let d := mkSplit array xyz data_type s'.pre_step_sample_fraction
    let cells := (pipeline s' ftb array xyz data_type).1
    let test_stats_main : Mat := cells.map (fun r => r.map Prod.fst)
    let p_vals_main : Mat := cells.map (fun r => r.map Prod.snd)
    match listMax (test_stats_main.flatten.map (fun q => |q|)) with
    | none => .error .valueError
    | some mx =>
      let p_agg : Option ℚ :=
        if s'.cond_ind_test.significance ≠ "fixed_thres" then
          some (min ((listMin p_vals_main.flatten).getD 0 * d.dim_x * d.dim_y) 1)
        else none
      .ok ((mx, p_agg), s')

/-- `get_dependence_measure` (lines 292–296): runs the evaluation and
stores the statistic and significance on the object. -/
def get_dependence_measure (s : PairwiseMultCI) (array : Mat) (xyz : List ℕ)
    (data_type : Option Mat) : Except Err (ℚ × PairwiseMultCI) :=
  match calculate s array xyz data_type with
  | .error e => .error e
  | .ok ((v, p), s') => .ok (v, { s' with dep_measure := some v, signif := some p })

/-- `get_analytic_significance` (lines 298–300): ignores every parameter
and returns the stored `self.signif`; fails with an attribute error when
no evaluation has stored one yet. -/
def get_analytic_significance (s : PairwiseMultCI) (_value : Option ℚ)
    (_T _dim : Option ℕ) (_xyz : Option (List ℕ)) (_data_type : Option Mat) :
    Except Err (Option ℚ) :=
  match s.signif with
  | none => .error .attributeError
  | some p => .ok p

/-! ### Basic list lemmas -/

theorem listMax_ne_nil {l : List ℚ} (h : l ≠ []) : ∃ m, listMax l = some m := by
  cases l with
  | nil => exact absurd rfl h
  | cons q l => exact ⟨_, rfl⟩

theorem listMax_spec {l : List ℚ} {m : ℚ} (h : listMax l = some m) :
    m ∈ l ∧ ∀ x ∈ l, x ≤ m := by
  induction l generalizing m with
  | nil => simp [listMax] at h
  | cons q l ih =>
    simp only [listMax] at h
    cases hl : listMax l with
    | none =>
      rw [hl] at h
      cases l with
      | nil =>
        simp only [Option.some.injEq] at h
        subst h
        exact ⟨List.mem_singleton_self q, by intro x hx; simp at hx; simp [hx]⟩
      | cons a l' => simp [listMax] at hl
    | some m' =>
      rw [hl] at h
      simp only [Option.some.injEq] at h
      subst h
      obtain ⟨hmem, hub⟩ := ih hl
      constructor
      · rcases le_total q m' with hle | hle
        · simp [max_eq_right hle, hmem]
        · simp [max_eq_left hle]
      · intro x hx
        rcases List.mem_cons.1 hx with rfl | hx
        · exact le_max_left _ _
        · exact le_trans (hub x hx) (le_max_right _ _)

theorem listMin_ne_nil {l : List ℚ} (h : l ≠ []) : ∃ m, listMin l = some m := by
  cases l with
  | nil => exact absurd rfl h
  | cons q l => exact ⟨_, rfl⟩

theorem listMin_spec {l : List ℚ} {m : ℚ} (h : listMin l = some m) :
    m ∈ l ∧ ∀ x ∈ l, m ≤ x := by
  induction l generalizing m with
  | nil => simp [listMin] at h
  | cons q l ih =>
    simp only [listMin] at h
    cases hl : listMin l with
    | none =>
      rw [hl] at h
      cases l with
      | nil =>
        simp only [Option.some.injEq] at h
        subst h
        exact ⟨List.mem_singleton_self q, by intro x hx; simp at hx; simp [hx]⟩
      | cons a l' => simp [listMin] at hl
    | some m' =>
      rw [hl] at h
      simp only [Option.some.injEq] at h
      subst h
      obtain ⟨hmem, hlb⟩ := ih hl
      constructor
      · rcases le_total q m' with hle | hle
        · simp [min_eq_left hle]
        · simp [min_eq_right hle, hmem]
      · intro x hx
        rcases List.mem_cons.1 hx with rfl | hx
        · exact min_le_left _ _
        · exact le_trans (min_le_right _ _) (hlb x hx)

theorem listMax_congr {l l' : List ℚ} (h : ∀ q, q ∈ l ↔ q ∈ l') :
    listMax l = listMax l' := by
  cases hl : l with
  | nil =>
    have : l' = [] := by
      apply List.eq_nil_iff_forall_not_mem.2
      intro a ha
      exact absurd ((h a).2 ha) (by simp [hl])
    simp [this, listMax]
  | cons q t =>
    have hne : l ≠ [] := by simp [hl]
    rw [← hl]
    obtain ⟨m, hm⟩ := listMax_ne_nil hne
    have hne' : l' ≠ [] := by
      intro hnil
      obtain ⟨hmem, _⟩ := listMax_spec hm
      exact absurd ((h m).1 hmem) (by simp [hnil])
    obtain ⟨m', hm'⟩ := listMax_ne_nil hne'
    obtain ⟨hmem, hub⟩ := listMax_spec hm
    obtain ⟨hmem', hub'⟩ := listMax_spec hm'
    rw [hm, hm']
    congr 1
    exact le_antisymm (hub' m ((h m).1 hmem)) (hub m' ((h m').2 hmem'))

theorem listMin_congr {l l' : List ℚ} (h : ∀ q, q ∈ l ↔ q ∈ l') :
    listMin l = listMin l' := by
  cases hl : l with
  | nil =>
    have : l' = [] := by
      apply List.eq_nil_iff_forall_not_mem.2
      intro a ha
      exact absurd ((h a).2 ha) (by simp [hl])
    simp [this, listMin]
  | cons q t =>
    have hne : l ≠ [] := by simp [hl]
    rw [← hl]
    obtain ⟨m, hm⟩ := listMin_ne_nil hne
    have hne' : l' ≠ [] := by
      intro hnil
      obtain ⟨hmem, _⟩ := listMin_spec hm
      exact absurd ((h m).1 hmem) (by simp [hnil])
    obtain ⟨m', hm'⟩ := listMin_ne_nil hne'
    obtain ⟨hmem, hlb⟩ := listMin_spec hm
    obtain ⟨hmem', hlb'⟩ := listMin_spec hm'
    rw [hm, hm']
    congr 1
    exact le_antisymm (hlb m' ((h m').2 hmem')) (hlb' m ((h m).1 hmem))

/-- `getD` of a map over `List.range` below the bound. -/
theorem getD_map_range {α : Type} (f : ℕ → α) {n i : ℕ} (h : i < n) (d : α) :
    ((List.range n).map f).getD i d = f i := by
  rw [List.getD_eq_getElem?_getD, List.getElem?_map, List.getElem?_range h]
  rfl

/-- `getD` of a map over `List.range` at or above the bound. -/
theorem getD_map_range_ge {α : Type} (f : ℕ → α) {n i : ℕ} (h : n ≤ i) (d : α) :
    ((List.range n).map f).getD i d = d := by
  rw [List.getD_eq_getElem?_getD, List.getElem?_map]
  rw [List.getElem?_eq_none (by simpa using h)]
  rfl

/-- Membership in the flattening of a `dim_x × dim_y` grid of values. -/
theorem mem_flatten_grid {α : Type} (f : ℕ → ℕ → α) (n m : ℕ) (q : α) :
    q ∈ ((List.range n).map (fun a => (List.range m).map (fun b => f a b))).flatten ↔
      ∃ a, a < n ∧ ∃ b, b < m ∧ f a b = q := by
  simp only [List.mem_flatten, List.mem_map, List.mem_range]
  constructor
  · rintro ⟨_, ⟨a, ha, rfl⟩, hq⟩
    obtain ⟨b, hb, hfb⟩ := by simpa using hq
    exact ⟨a, ha, b, hb, hfb⟩
  · rintro ⟨a, ha, b, hb, rfl⟩
    exact ⟨_, ⟨a, ha, rfl⟩, by simp; exact ⟨b, hb, rfl⟩⟩

/-! ### Shape and membership lemmas for the main-step double loop -/

theorem mainRow_foldl_shape (eng : Engine) (ftb : Bool) (d : SplitData)
    (iset : List (ℕ × ℕ)) (j : ℕ) (l : List ℕ) (acc : List (ℚ × ℚ)) (z : Option Mat) :
    ((l.foldl (fun a jj =>
        let r := mainCell eng ftb d iset j jj a.2
        (a.1 ++ [r.1], r.2)) (acc, z)).1).length = acc.length + l.length := by
  induction l generalizing acc z with
  | nil => simp
  | cons x xs ih =>
    simp only [List.foldl_cons]
    rw [ih]
    simp
    omega

theorem mainRow_length (eng : Engine) (ftb : Bool) (d : SplitData)
    (iset : List (ℕ × ℕ)) (j : ℕ) (z : Option Mat) :
    (mainRow eng ftb d iset j z).1.length = d.dim_y := by
  unfold mainRow
  rw [mainRow_foldl_shape]
  simp

theorem mainAll_foldl_shape (eng : Engine) (ftb : Bool) (d : SplitData)
    (iset : List (ℕ × ℕ)) (l : List ℕ) (acc : List (List (ℚ × ℚ))) (z : Option Mat) :
    ((l.foldl (fun a j =>
        let r := mainRow eng ftb d iset j a.2
        (a.1 ++ [r.1], r.2)) (acc, z)).1).length = acc.length + l.length := by
  induction l generalizing acc z with
  | nil => simp
  | cons x xs ih =>
    simp only [List.foldl_cons]
    rw [ih]
    simp
    omega

theorem mainAll_length (eng : Engine) (ftb : Bool) (d : SplitData)
    (iset : List (ℕ × ℕ)) :
    (mainAll eng ftb d iset).1.length = d.dim_x := by
  unfold mainAll
  rw [mainAll_foldl_shape]
  simp

theorem mainRow_foldl_mem (eng : Engine) (ftb : Bool) (d : SplitData)
    (iset : List (ℕ × ℕ)) (j : ℕ) (l : List ℕ) (acc : List (ℚ × ℚ)) (z : Option Mat) :
    ∀ q ∈ (l.foldl (fun a jj =>
        let r := mainCell eng ftb d iset j jj a.2
        (a.1 ++ [r.1], r.2)) (acc, z)).1,
      q ∈ acc ∨ ∃ jj zt, jj ∈ l ∧ q = (mainCell eng ftb d iset j jj zt).1 := by
  induction l generalizing acc z with
  | nil => intro q hq; exact Or.inl hq
  | cons x xs ih =>
    intro q hq
    simp only [List.foldl_cons] at hq
    rcases ih _ _ q hq with hacc | ⟨jj, zt, hjj, hform⟩
    · rcases List.mem_append.1 hacc with h | h
      · exact Or.inl h
      · simp only [List.mem_singleton] at h
        exact Or.inr ⟨x, z, List.mem_cons_self _ _, h⟩
    · exact Or.inr ⟨jj, zt, List.mem_cons_of_mem _ hjj, hform⟩

theorem mainRow_mem (eng : Engine) (ftb : Bool) (d : SplitData)
    (iset : List (ℕ × ℕ)) (j : ℕ) (z : Option Mat) :
    ∀ q ∈ (mainRow eng ftb d iset j z).1,
      ∃ jj zt, q = (mainCell eng ftb d iset j jj zt).1 := by
  intro q hq
  rcases mainRow_foldl_mem eng ftb d iset j _ [] z q hq with h | ⟨jj, zt, _, hform⟩
  · simp at h
  · exact ⟨jj, zt, hform⟩

theorem mainAll_foldl_mem (eng : Engine) (ftb : Bool) (d : SplitData)
    (iset : List (ℕ × ℕ)) (l : List ℕ) (acc : List (List (ℚ × ℚ))) (z : Option Mat) :
    ∀ r ∈ (l.foldl (fun a j =>
        let rr := mainRow eng ftb d iset j a.2
        (a.1 ++ [rr.1], rr.2)) (acc, z)).1,
      r ∈ acc ∨ ∃ j zt, r = (mainRow eng ftb d iset j zt).1 := by
  induction l generalizing acc z with
  | nil => intro r hr; exact Or.inl hr
  | cons x xs ih =>
    intro r hr
    simp only [List.foldl_cons] at hr
    rcases ih _ _ r hr with hacc | hform
    · rcases List.mem_append.1 hacc with h | h
      · exact Or.inl h
      · simp only [List.mem_singleton] at h
        exact Or.inr ⟨x, z, h⟩
    · exact Or.inr hform

/-- Every cell of the main-step matrix is a `mainCell` result (the result
of one engine invocation for some pair, at some threaded `z_type_s2`). -/
theorem mainAll_cell_mem (eng : Engine) (ftb : Bool) (d : SplitData)
    (iset : List (ℕ × ℕ)) :
    ∀ q ∈ (mainAll eng ftb d iset).1.flatten,
      ∃ j jj zt, q = (mainCell eng ftb d iset j jj zt).1 := by
  intro q hq
  obtain ⟨r, hr, hqr⟩ := List.mem_flatten.1 hq
  rcases mainAll_foldl_mem eng ftb d iset _ [] d.z_type_s2 r hr with h | ⟨j, zt, rfl⟩
  · simp at h
  · obtain ⟨jj, zt', hform⟩ := mainRow_mem eng ftb d iset j zt q hqr
    exact ⟨j, jj, zt', hform⟩

/-- Each row of the main-step matrix has `dim_y` entries. -/
theorem mainAll_row_length (eng : Engine) (ftb : Bool) (d : SplitData)
    (iset : List (ℕ × ℕ)) :
    ∀ r ∈ (mainAll eng ftb d iset).1, r.length = d.dim_y := by
  intro r hr
  rcases mainAll_foldl_mem eng ftb d iset _ [] d.z_type_s2 r hr with h | ⟨j, zt, rfl⟩
  · simp at h
  · exact mainRow_length eng ftb d iset j zt

/-- Every `mainCell` leaves the threaded `z_type_s2` unchanged when the
split y-type block is absent (`data_type = None`). -/
theorem mainCell_ztype_of_ynone (eng : Engine) (ftb : Bool) (d : SplitData)
    (iset : List (ℕ × ℕ)) (j jj : ℕ) (zt : Option Mat)
    (h : d.y_type_s2 = none) :
    (mainCell eng ftb d iset j jj zt).2 = zt := by
  unfold mainCell
  rw [h]
  dsimp only
  split
  · split <;> rfl
  · rfl

theorem mainRow_grid_of_ynone (eng : Engine) (ftb : Bool) (d : SplitData)
    (iset : List (ℕ × ℕ)) (j : ℕ) (z : Option Mat) (h : d.y_type_s2 = none)
    (l : List ℕ) (acc : List (ℚ × ℚ)) :
    (l.foldl (fun a jj =>
        let r := mainCell eng ftb d iset j jj a.2
        (a.1 ++ [r.1], r.2)) (acc, z)) =
      (acc ++ l.map (fun jj => (mainCell eng ftb d iset j jj z).1), z) := by
  induction l generalizing acc with
  | nil => simp
  | cons x xs ih =>
    simp only [List.foldl_cons, List.map_cons]
    rw [mainCell_ztype_of_ynone eng ftb d iset j x z h, ih]
    simp

/-- With `data_type = None` the double loop computes a plain grid of
independent cells (no `z_type_s2` mutation happens). -/
theorem mainAll_grid_of_ynone (eng : Engine) (ftb : Bool) (d : SplitData)
    (iset : List (ℕ × ℕ)) (h : d.y_type_s2 = none) :
    mainAll eng ftb d iset =
      ((List.range d.dim_x).map (fun j =>
        (List.range d.dim_y).map (fun jj =>
          (mainCell eng ftb d iset j jj d.z_type_s2).1)), d.z_type_s2) := by
  unfold mainAll
  have hrow : ∀ j z, mainRow eng ftb d iset j z =
      ((List.range d.dim_y).map (fun jj => (mainCell eng ftb d iset j jj z).1), z) := by
    intro j z
    unfold mainRow
    rw [mainRow_grid_of_ynone eng ftb d iset j z h]
    simp
  have : ∀ (l : List ℕ) (acc : List (List (ℚ × ℚ))),
      (l.foldl (fun a j =>
        let r := mainRow eng ftb d iset j a.2
        (a.1 ++ [r.1], r.2)) (acc, d.z_type_s2)) =
      (acc ++ l.map (fun j => (List.range d.dim_y).map (fun jj =>
        (mainCell eng ftb d iset j jj d.z_type_s2).1)), d.z_type_s2) := by
    intro l
    induction l with
    | nil => simp
    | cons x xs ih =>
      intro acc
      simp only [List.foldl_cons, List.map_cons]
      rw [hrow x d.z_type_s2]
      dsimp only
      rw [ih]
      simp
  rw [this (List.range d.dim_x) []]
  simp

/-! ### Regime-resolution lemmas -/

theorem resolveRegime_fst (s : PairwiseMultCI) :
    (resolveRegime s).1 = true ↔
      (s.significance = "fixed_thres" ∨ s.cond_ind_test.significance = "fixed_thres") := by
  unfold resolveRegime
  by_cases h1 : s.significance = "fixed_thres" <;>
    by_cases h2 : s.cond_ind_test.significance = "fixed_thres" <;>
      simp [h1, h2]

theorem resolveRegime_of_false {s : PairwiseMultCI}
    (h : (resolveRegime s).1 = false) : resolveRegime s = (false, s) := by
  have h1 : ¬ s.significance = "fixed_thres" := by
    intro hc
    rw [(resolveRegime_fst s).2 (Or.inl hc)] at h
    exact absurd h (by simp)
  have h2 : ¬ s.cond_ind_test.significance = "fixed_thres" := by
    intro hc
    rw [(resolveRegime_fst s).2 (Or.inr hc)] at h
    exact absurd h (by simp)
  unfold resolveRegime
  simp [h1, h2]

theorem resolveRegime_tags_of_true {s : PairwiseMultCI}
    (h : (resolveRegime s).1 = true) :
    (resolveRegime s).2.significance = "fixed_thres" ∧
    (resolveRegime s).2.cond_ind_test.significance = "fixed_thres" := by
  have := (resolveRegime_fst s).1 h
  unfold resolveRegime
  by_cases h1 : s.significance = "fixed_thres" <;>
    by_cases h2 : s.cond_ind_test.significance = "fixed_thres" <;>
      simp [h1, h2] <;> tauto

/-- Regime resolution touches only the two significance tags. -/
theorem resolveRegime_frame (s : PairwiseMultCI) :
    (resolveRegime s).2.measure = s.measure ∧
    (resolveRegime s).2.alpha_pre = s.alpha_pre ∧
    (resolveRegime s).2.pre_step_sample_fraction = s.pre_step_sample_fraction ∧
    (resolveRegime s).2.fixed_thres_pre = s.fixed_thres_pre ∧
    (resolveRegime s).2.two_sided = s.two_sided ∧
    (resolveRegime s).2.cond_ind_test.run = s.cond_ind_test.run ∧
    (resolveRegime s).2.dep_measure = s.dep_measure ∧
    (resolveRegime s).2.signif = s.signif := by
  unfold resolveRegime
  by_cases h1 : s.significance = "fixed_thres" <;>
    by_cases h2 : s.cond_ind_test.significance = "fixed_thres" <;>
      simp [h1, h2]

/-! ### Normal form and inversion lemmas for `calculate` -/

theorem calculate_eq (s : PairwiseMultCI) (array : Mat) (xyz : List ℕ) (dt : Option Mat) :
    calculate s array xyz dt =
      (if (resolveRegime s).1 && (resolveRegime s).2.fixed_thres_pre.isNone then
        .error .valueError
      else
        match listMax (((mainCellsOf s array xyz dt).map (fun r => r.map Prod.fst)).flatten.map
            (fun q => |q|)) with
        | none => .error .valueError
        | some mx =>
          .ok ((mx,
            if (resolveRegime s).2.cond_ind_test.significance ≠ "fixed_thres" then
              some (min ((listMin ((mainCellsOf s array xyz dt).map
                  (fun r => r.map Prod.snd)).flatten).getD 0 *
                ((mkSplit array xyz dt
                    (resolveRegime s).2.pre_step_sample_fraction).dim_x : ℚ) *
                ((mkSplit array xyz dt
                    (resolveRegime s).2.pre_step_sample_fraction).dim_y : ℚ)) 1)
            else none), (resolveRegime s).2)) := rfl

theorem calculate_ok_state {s : PairwiseMultCI} {array : Mat} {xyz : List ℕ}
    {dt : Option Mat} {r : ℚ × Option ℚ} {s' : PairwiseMultCI}
    (h : calculate s array xyz dt = .ok (r, s')) : s' = (resolveRegime s).2 := by
  rw [calculate_eq] at h
  by_cases hg : ((resolveRegime s).1 && (resolveRegime s).2.fixed_thres_pre.isNone) = true
  · rw [if_pos hg] at h
    cases h
  · rw [if_neg hg] at h
    cases hmx : listMax (((mainCellsOf s array xyz dt).map (fun r => r.map Prod.fst)).flatten.map
        (fun q => |q|)) with
    | none => rw [hmx] at h; cases h
    | some mx =>
      rw [hmx] at h
      simp only [Except.ok.injEq, Prod.mk.injEq] at h
      exact h.2.symm

/-! ### Concrete instances used in witnesses and counterexamples -/

/-- A trivial engine: constant statistic 0 and p-value 0. -/
def engZero : Engine := ⟨"analytic", fun _ _ _ _ _ _ _ => (0, 0)⟩

/-- An engine in the fixed-threshold regime (constant output). -/
def engZeroFT : Engine := ⟨"fixed_thres", fun _ _ _ _ _ _ _ => (0, 0)⟩

/-- An engine with constant statistic 3 and p-value 1/4. -/
def engConst : Engine := ⟨"analytic", fun _ _ _ _ _ _ _ => (3, 1/4)⟩

/-- A 2-variable, 2-sample observation matrix of zeros. -/
def arrTwo : Mat := [[0, 0], [0, 0]]

/-!
## C2 — regime resolution and the configuration error
-/

theorem resolveRegime_run_replace (s : PairwiseMultCI)
    (r : Mat → Mat → Mat → Option Mat → Option Mat → Option Mat → Option ℚ → ℚ × ℚ) :
    (resolveRegime { s with
        cond_ind_test := { s.cond_ind_test with run := r } }).1 = (resolveRegime s).1 ∧
    (resolveRegime { s with
        cond_ind_test := { s.cond_ind_test with run := r } }).2.fixed_thres_pre =
      s.fixed_thres_pre := by
  unfold resolveRegime
  by_cases h1 : s.significance = "fixed_thres" <;>
    by_cases h2 : s.cond_ind_test.significance = "fixed_thres" <;>
      simp [h1, h2]

/-- C2: at the start of every evaluation the fixed-threshold regime is
active iff the outer test's tag or the inner engine's tag equals
`"fixed_thres"`; when active, both tags are set to `"fixed_thres"`, and
with `fixed_thres_pre` unset the evaluation raises a `ValueError` before
any univariate test is run (the error is independent of the engine's
`run` behaviour); construction itself performs no such check. -/
theorem C2_regime_resolution_and_config_error (s : PairwiseMultCI) :
    ((resolveRegime s).1 = true ↔
      (s.significance = "fixed_thres" ∨ s.cond_ind_test.significance = "fixed_thres")) ∧
    ((resolveRegime s).1 = true →
      (resolveRegime s).2.significance = "fixed_thres" ∧
      (resolveRegime s).2.cond_ind_test.significance = "fixed_thres") ∧
    ((resolveRegime s).1 = true → s.fixed_thres_pre = none →
      ∀ r array xyz dt,
        calculate { s with cond_ind_test := { s.cond_ind_test with run := r } }
            array xyz dt = .error .valueError) ∧
    (∀ eng a f sig,
      (PairwiseMultCI.init eng a f none sig).significance = sig ∧
      (PairwiseMultCI.init eng a f none sig).fixed_thres_pre = none ∧
      (PairwiseMultCI.init eng a f none sig).cond_ind_test = eng) := by
  refine ⟨resolveRegime_fst s, fun h => resolveRegime_tags_of_true h, ?_, ?_⟩
  · intro h hn r array xyz dt
    rw [calculate_eq]
    rw [if_pos]
    rw [(resolveRegime_run_replace s r).1, h, (resolveRegime_run_replace s r).2, hn]
    rfl
  · intro eng a f sig
    exact ⟨rfl, rfl, rfl⟩

/-- State for the C2 witness: inner engine in the fixed-threshold regime,
`fixed_thres_pre` not supplied. -/
def sC2 : PairwiseMultCI := PairwiseMultCI.init engZeroFT 0 (1/2) none "analytic"

theorem C2_witness :
    calculate { sC2 with cond_ind_test := { sC2.cond_ind_test with
        run := fun _ _ _ _ _ _ _ => (1, 1) } } arrTwo [0, 1] none = .error .valueError :=
  (C2_regime_resolution_and_config_error sC2).2.2.1
    ((resolveRegime_fst sC2).2 (Or.inr rfl)) rfl _ arrTwo [0, 1] none

/-!
## C10 — the `get_analytic_significance` accessor
-/

/-- C10: `get_analytic_significance` ignores all of its parameters and
returns exactly the significance stored by the most recent
`get_dependence_measure` call; with no stored value it fails. -/
theorem C10_accessor_returns_stored_significance (s : PairwiseMultCI) :
    (∀ v T dim xyz dt v' T' dim' xyz' dt',
      get_analytic_significance s v T dim xyz dt =
        get_analytic_significance s v' T' dim' xyz' dt') ∧
    (∀ array xyz dtt v s2 r s3,
      get_dependence_measure s array xyz dtt = .ok (v, s2) →
      calculate s array xyz dtt = .ok (r, s3) →
      ∀ a b c d e, get_analytic_significance s2 a b c d e = .ok r.2) ∧
    (s.signif = none →
      ∀ a b c d e, get_analytic_significance s a b c d e = .error .attributeError) := by
  refine ⟨fun _ _ _ _ _ _ _ _ _ _ => rfl, ?_, ?_⟩
  · intro array xyz dtt v s2 r s3 h1 h2
    unfold get_dependence_measure at h1
    rw [h2] at h1
    obtain ⟨rv, rp⟩ := r
    simp only [Except.ok.injEq, Prod.mk.injEq] at h1
    intro a b c d e
    rw [← h1.2]
    rfl
  · intro hn a b c d e
    unfold get_analytic_significance
    rw [hn]

/-- State for the C10 witness: no dependence measure computed yet. -/
def sC10 : PairwiseMultCI := PairwiseMultCI.init engConst 0 (1/2) none "analytic"

theorem C10_witness :
    get_analytic_significance sC10 none none none none none = .error .attributeError :=
  (C10_accessor_returns_stored_significance sC10).2.2 rfl none none none none none

/-!
## C6 — which state the evaluation may change (corrected)
-/

/-- State for the C6 counterexample: outer tag `"fixed_thres"`, inner
engine tag `"analytic"`, threshold supplied. -/
def sC6 : PairwiseMultCI := PairwiseMultCI.init engZero 0 (1/2) (some 1) "fixed_thres"

/-- C6 counterexample: the claim says the inner engine's significance tag
is unchanged by an evaluation; here the evaluation succeeds and rewrites
it from `"analytic"` to `"fixed_thres"`. -/
theorem C6_counterexample :
    sC6.cond_ind_test.significance = "analytic" ∧
    (get_dependence_measure sC6 arrTwo [0, 1] none).toOption.map
        (fun r => r.2.cond_ind_test.significance) = some "fixed_thres" := by
  constructor
  · rfl
  · rfl

/-- C6 amended: an evaluation changes only the stored statistic and
significance and — when the fixed-threshold regime is active — the two
significance tags, which are both set to `"fixed_thres"`; every other
attribute (including the engine's `run` behaviour) is unchanged. -/
theorem C6_amended_frame (s : PairwiseMultCI) (array : Mat) (xyz : List ℕ)
    (dt : Option Mat) (v : ℚ) (s2 : PairwiseMultCI)
    (h : get_dependence_measure s array xyz dt = .ok (v, s2)) :
    s2.measure = s.measure ∧
    s2.alpha_pre = s.alpha_pre ∧
    s2.pre_step_sample_fraction = s.pre_step_sample_fraction ∧
    s2.fixed_thres_pre = s.fixed_thres_pre ∧
    s2.two_sided = s.two_sided ∧
    s2.cond_ind_test.run = s.cond_ind_test.run ∧
    s2.dep_measure = some v ∧
    (∃ p, s2.signif = some p) ∧
    ((resolveRegime s).1 = true →
      s2.significance = "fixed_thres" ∧
      s2.cond_ind_test.significance = "fixed_thres") ∧
    ((resolveRegime s).1 = false →
      s2.significance = s.significance ∧
      s2.cond_ind_test.significance = s.cond_ind_test.significance) := by
  unfold get_dependence_measure at h
  cases hc : calculate s array xyz dt with
  | error e => rw [hc] at h; cases h
  | ok p =>
    obtain ⟨⟨vv, pp⟩, ss⟩ := p
    rw [hc] at h
    simp only [Except.ok.injEq, Prod.mk.injEq] at h
    have hss : ss = (resolveRegime s).2 := calculate_ok_state hc
    obtain ⟨hv, hs2⟩ := h
    subst hs2
    subst hss
    obtain ⟨f1, f2, f3, f4, f5, f6, _, _⟩ := resolveRegime_frame s
    refine ⟨f1, f2, f3, f4, f5, f6, by rw [hv], ⟨pp, rfl⟩, ?_, ?_⟩
    · intro ht
      exact resolveRegime_tags_of_true ht
    · intro hf
      rw [resolveRegime_of_false hf]
      exact ⟨rfl, rfl⟩

/-- State for the C6 witness (p-value regime: tags untouched). -/
def sC6w : PairwiseMultCI := PairwiseMultCI.init engConst 0 (1/2) none "analytic"

/-- The state stored by the C6 witness evaluation. -/
def sC6w2 : PairwiseMultCI := { sC6w with dep_measure := some 3, signif := some (some (1/4)) }

theorem C6_witness :
    sC6w2.cond_ind_test.run = sC6w.cond_ind_test.run ∧ sC6w2.dep_measure = some 3 := by
  have h := C6_amended_frame sC6w arrTwo [0, 1] none 3 sC6w2 (by with_unfolding_all rfl)
  exact ⟨h.2.2.2.2.2.1, h.2.2.2.2.2.2.1⟩

/-! ### Non-emptiness of the aggregated matrices -/

theorem mainAll_flatten_ne_nil (eng : Engine) (ftb : Bool) (d : SplitData)
    (iset : List (ℕ × ℕ)) (hdx : d.dim_x ≠ 0) (hdy : d.dim_y ≠ 0) :
    (mainAll eng ftb d iset).1.flatten ≠ [] := by
  intro h
  have hlen := mainAll_length eng ftb d iset
  cases hc : (mainAll eng ftb d iset).1 with
  | nil => rw [hc] at hlen; exact hdx hlen.symm
  | cons c rest =>
    have hcmem : c ∈ (mainAll eng ftb d iset).1 := by rw [hc]; exact List.mem_cons_self _ _
    have hclen := mainAll_row_length eng ftb d iset c hcmem
    rw [hc] at h
    simp only [List.flatten_cons, List.append_eq_nil] at h
    rw [h.1] at hclen
    exact hdy hclen.symm

/-- The aggregation step always finds a maximum when the X and Y blocks
are non-empty: `np.max` does not error out. -/
theorem stats_listMax_some (s : PairwiseMultCI) (array : Mat) (xyz : List ℕ)
    (dt : Option Mat)
    (hdx : (mkSplit array xyz dt s.pre_step_sample_fraction).dim_x ≠ 0)
    (hdy : (mkSplit array xyz dt s.pre_step_sample_fraction).dim_y ≠ 0) :
    ∃ mx, listMax (((mainCellsOf s array xyz dt).map (fun r => r.map Prod.fst)).flatten.map
      (fun q => |q|)) = some mx := by
  apply listMax_ne_nil
  have hfrac : (resolveRegime s).2.pre_step_sample_fraction = s.pre_step_sample_fraction :=
    (resolveRegime_frame s).2.2.1
  have hne : (mainCellsOf s array xyz dt).flatten ≠ [] := by
    unfold mainCellsOf pipeline
    rw [hfrac]
    exact mainAll_flatten_ne_nil _ _ _ _ hdx hdy
  intro hmap
  apply hne
  rw [← List.map_flatten] at hmap
  exact List.map_eq_nil.1 (List.map_eq_nil.1 hmap)

/-!
## C5 — no degenerate-split check (corrected)
-/

/-- State for the C5 counterexample: `pre_step_sample_fraction = 1/10`
with `T = 2` yields `split = floor(0.2) = 0`. -/
def sC5 : PairwiseMultCI := PairwiseMultCI.init engZero 0 (1/10) none "analytic"

/-- C5 counterexample: at a fraction yielding `split = 0` the evaluation
returns a result instead of raising a degenerate-split error. -/
theorem C5_counterexample :
    (mkSplit arrTwo [0, 1] none sC5.pre_step_sample_fraction).sfb = 0 ∧
    (calculate sC5 arrTwo [0, 1] none).toOption.isSome = true := by
  constructor
  · with_unfolding_all rfl
  · rfl

/-- C5 amended: the code contains no degenerate-split check at all.
Whenever the regime configuration is valid and the X and Y blocks are
non-empty, the evaluation returns a result for every
`pre_step_sample_fraction` — including fractions for which the pre-step
or the main-step block has zero columns; the empty blocks are passed to
the univariate engine as-is. -/
theorem C5_amended_no_degenerate_split_error (s : PairwiseMultCI) (array : Mat)
    (xyz : List ℕ) (dt : Option Mat)
    (hthres : (resolveRegime s).1 = true → s.fixed_thres_pre ≠ none)
    (hdx : (mkSplit array xyz dt s.pre_step_sample_fraction).dim_x ≠ 0)
    (hdy : (mkSplit array xyz dt s.pre_step_sample_fraction).dim_y ≠ 0) :
    ∃ r, calculate s array xyz dt = .ok r := by
  rw [calculate_eq]
  have hguard : ((resolveRegime s).1 && (resolveRegime s).2.fixed_thres_pre.isNone) = false := by
    cases hf : (resolveRegime s).1 with
    | false => rfl
    | true =>
      have := hthres hf
      rw [Bool.true_and]
      rw [(resolveRegime_frame s).2.2.2.1]
      cases hv : s.fixed_thres_pre with
      | none => exact absurd hv this
      | some q => rfl
  rw [hguard]
  simp only [Bool.false_eq_true, if_false]
  obtain ⟨mx, hmx⟩ := stats_listMax_some s array xyz dt hdx hdy
  rw [hmx]
  exact ⟨_, rfl⟩

theorem C5_witness :
    ∃ r, calculate sC5 arrTwo [0, 1] none = .ok r :=
  C5_amended_no_degenerate_split_error sC5 arrTwo [0, 1] none
    (fun h => by cases h) (by decide) (by decide)

/-!
## C7 — the independence classifier
-/

/-- C7: a pair `(j, jj)` is in the independence set iff, in the p-value
regime, its pre-step p-value is strictly greater than `alpha_pre`, and in
the fixed-threshold regime, iff the absolute pre-step statistic is at
least `fixed_thres_pre`. -/
theorem C7_independence_classifier (alpha thres : ℚ) (pre : Mat) (dx dy j jj : ℕ)
    (hj : j < dx) (hjj : jj < dy) :
    ((j, jj) ∈ indepSet alpha thres false pre dx dy ↔
      alpha < (pre.getD j []).getD jj 0) ∧
    ((j, jj) ∈ indepSet alpha thres true pre dx dy ↔
      thres ≤ |(pre.getD j []).getD jj 0|) := by
  constructor
  · simp only [indepSet, preTest, List.mem_flatMap, List.mem_map, List.mem_filter,
      List.mem_range, Prod.mk.injEq]
    constructor
    · rintro ⟨a, ha, b, ⟨⟨hb, hpred⟩, rfl, rfl⟩⟩
      simpa using hpred
    · intro hlt
      exact ⟨j, hj, jj, ⟨⟨hjj, by simpa using hlt⟩, rfl, rfl⟩⟩
  · simp only [indepSet, preTest, List.mem_flatMap, List.mem_map, List.mem_filter,
      List.mem_range, Prod.mk.injEq]
    constructor
    · rintro ⟨a, ha, b, ⟨⟨hb, hpred⟩, rfl, rfl⟩⟩
      simpa using hpred
    · intro hle
      exact ⟨j, hj, jj, ⟨⟨hjj, by simpa using hle⟩, rfl, rfl⟩⟩

theorem C7_witness :
    (0, 1) ∈ indepSet (1/2) 1 false [[0, 1], [1, 0]] 2 2 ∧
    ¬ (0, 0) ∈ indepSet (1/2) 1 false [[0, 1], [1, 0]] 2 2 := by
  constructor
  · exact (C7_independence_classifier (1/2) 1 [[0, 1], [1, 0]] 2 2 0 1
      (by decide) (by decide)).1.2
      (by norm_num [List.getD_cons_zero, List.getD_cons_succ])
  · intro hmem
    have := (C7_independence_classifier (1/2) 1 [[0, 1], [1, 0]] 2 2 0 0
      (by decide) (by decide)).1.1 hmem
    rw [List.getD_cons_zero, List.getD_cons_zero] at this
    exact absurd this (by norm_num)

/-!
## C3 — the conditioning-set builder and main-step dispatch
-/

theorem indicesY_mem_iff (iset : List (ℕ × ℕ)) (j jj b : ℕ) :
    b ∈ indicesY iset j jj ↔ ((j, b) ∈ iset ∧ b ≠ jj) := by
  unfold indicesY
  by_cases hc : ((iset.map Prod.fst).contains j : Bool) = true
  · rw [if_pos hc]
    constructor
    · intro hb
      obtain ⟨hb1, hbne⟩ := List.mem_filter.1 hb
      obtain ⟨p, hp, hpb⟩ := List.mem_map.1 hb1
      obtain ⟨hpi, hpj⟩ := List.mem_filter.1 hp
      obtain ⟨p1, p2⟩ := p
      have h1 : p1 = j := by simpa using hpj
      have h2 : p2 = b := hpb
      subst h1; subst h2
      exact ⟨hpi, by simpa using hbne⟩
    · rintro ⟨hmem, hne⟩
      apply List.mem_filter.2
      refine ⟨List.mem_map.2 ⟨(j, b), List.mem_filter.2 ⟨hmem, by simp⟩, rfl⟩, by simpa using hne⟩
  · rw [if_neg hc]
    simp only [List.not_mem_nil, false_iff, not_and]
    intro hmem
    exfalso
    apply hc
    have : j ∈ iset.map Prod.fst := List.mem_map.2 ⟨(j, b), hmem, rfl⟩
    simpa [List.contains] using this

theorem indicesX_mem_iff (iset : List (ℕ × ℕ)) (j jj a : ℕ) :
    a ∈ indicesX iset j jj ↔ ((a, jj) ∈ iset ∧ a ≠ j) := by
  unfold indicesX
  by_cases hc : ((iset.map Prod.snd).contains jj : Bool) = true
  · rw [if_pos hc]
    constructor
    · intro ha
      obtain ⟨ha1, hane⟩ := List.mem_filter.1 ha
      obtain ⟨p, hp, hpa⟩ := List.mem_map.1 ha1
      obtain ⟨hpi, hpj⟩ := List.mem_filter.1 hp
      obtain ⟨p1, p2⟩ := p
      have h1 : p2 = jj := by simpa using hpj
      have h2 : p1 = a := hpa
      subst h1; subst h2
      exact ⟨hpi, by simpa using hane⟩
    · rintro ⟨hmem, hne⟩
      apply List.mem_filter.2
      refine ⟨List.mem_map.2 ⟨(a, jj), List.mem_filter.2 ⟨hmem, by simp⟩, rfl⟩, by simpa using hne⟩
  · rw [if_neg hc]
    simp only [List.not_mem_nil, false_iff, not_and]
    intro hmem
    exfalso
    apply hc
    have : jj ∈ iset.map Prod.snd := List.mem_map.2 ⟨(a, jj), hmem, rfl⟩
    simpa [List.contains] using this

/-- C3: `indicesY` and `indicesX` are exactly the claimed index sets, and
the main-step engine invocation conditions on Z alone when both are
empty, on Z plus the X-side components when `|indicesX| > |indicesY|`,
and on Z plus the Y-side components when `|indicesX| ≤ |indicesY|` (so a
tie selects the Y side). -/
theorem C3_conditioning_set_builder (eng : Engine) (ftb : Bool) (d : SplitData)
    (iset : List (ℕ × ℕ)) (j jj : ℕ) (zt : Option Mat) :
    (∀ b, b ∈ indicesY iset j jj ↔ ((j, b) ∈ iset ∧ b ≠ jj)) ∧
    (∀ a, a ∈ indicesX iset j jj ↔ ((a, jj) ∈ iset ∧ a ≠ j)) ∧
    (indicesX iset j jj = [] → indicesY iset j jj = [] →
      (mainCell eng ftb d iset j jj zt).1 =
        eng.run (reshape [d.x_s2.getD j []] (d.T - d.sfb) 1)
          (reshape [d.y_s2.getD jj []] (d.T - d.sfb) 1)
          (reshape d.z_s2 (d.T - d.sfb) d.dim_z)
          d.x_type_s2 d.y_type_s2 zt (if ftb then some 999 else none)) ∧
    ((indicesY iset j jj).length < (indicesX iset j jj).length →
      (mainCell eng ftb d iset j jj zt).1 =
        eng.run (reshape [d.x_s2.getD j []] (d.T - d.sfb) 1)
          (reshape [d.y_s2.getD jj []] (d.T - d.sfb) 1)
          (hstack (reshape d.z_s2 (d.T - d.sfb) d.dim_z)
            (reshape (selectRows d.x_s2 (indicesX iset j jj)) (d.T - d.sfb)
              (indicesX iset j jj).length))
          d.x_type_s2 d.y_type_s2 zt (if ftb then some 999 else none)) ∧
    (0 < (indicesX iset j jj).length + (indicesY iset j jj).length →
      (indicesX iset j jj).length ≤ (indicesY iset j jj).length →
      (mainCell eng ftb d iset j jj zt).1 =
        eng.run (reshape [d.x_s2.getD j []] (d.T - d.sfb) 1)
          (reshape [d.y_s2.getD jj []] (d.T - d.sfb) 1)
          (hstack (reshape d.z_s2 (d.T - d.sfb) d.dim_z)
            (reshape (selectRows d.y_s2 (indicesY iset j jj)) (d.T - d.sfb)
              (indicesY iset j jj).length))
          d.x_type_s2 d.y_type_s2
          (match d.y_type_s2 with
           | some yt => some (hstack (zt.getD []) (selectCols yt (indicesY iset j jj)))
           | none => zt)
          (if ftb then some 999 else none)) := by
  refine ⟨indicesY_mem_iff iset j jj, indicesX_mem_iff iset j jj, ?_, ?_, ?_⟩
  · intro hx hy
    unfold mainCell
    rw [hx, hy]
    simp
  · intro hlt
    unfold mainCell
    dsimp only
    rw [if_pos (by omega), if_pos hlt]
  · intro hpos hle
    unfold mainCell
    dsimp only
    rw [if_pos (by omega), if_neg (by omega)]

/-- An empty split-data record, used only to instantiate witnesses. -/
def dEmpty : SplitData :=
  ⟨0, 0, 0, 0, 0, [], [], [], [], [], [], none, none, none, none, none, none⟩

theorem C3_witness :
    1 ∈ indicesY [(0, 1), (1, 0)] 0 0 ∧ ¬ 0 ∈ indicesX [(0, 1), (1, 0)] 0 0 := by
  constructor
  · exact ((C3_conditioning_set_builder engZero false dEmpty
      [(0, 1), (1, 0)] 0 0 none).1 1).2 ⟨by decide, by decide⟩
  · intro hmem
    have := ((C3_conditioning_set_builder engZero false dEmpty
      [(0, 1), (1, 0)] 0 0 none).2.1 0).1 hmem
    exact absurd this.2 (by decide)

/-!
## C1 — aggregation in the p-value regime
-/

/-- Every main-step cell is the result of one engine invocation. -/
theorem mainCell_is_run (eng : Engine) (ftb : Bool) (d : SplitData)
    (iset : List (ℕ × ℕ)) (j jj : ℕ) (zt : Option Mat) :
    ∃ xa ya za zta, (mainCell eng ftb d iset j jj zt).1 =
      eng.run xa ya za d.x_type_s2 d.y_type_s2 zta (if ftb then some 999 else none) := by
  unfold mainCell
  dsimp only
  split
  · split
    · exact ⟨_, _, _, _, rfl⟩
    · exact ⟨_, _, _, _, rfl⟩
  · exact ⟨_, _, _, _, rfl⟩

/-- `np.min` of the main-step p-value matrix exists when the X and Y
blocks are non-empty. -/
theorem pvals_listMin_some (s : PairwiseMultCI) (array : Mat) (xyz : List ℕ)
    (dt : Option Mat)
    (hdx : (mkSplit array xyz dt s.pre_step_sample_fraction).dim_x ≠ 0)
    (hdy : (mkSplit array xyz dt s.pre_step_sample_fraction).dim_y ≠ 0) :
    ∃ mn, listMin (((mainCellsOf s array xyz dt).map (fun r => r.map Prod.snd)).flatten) =
      some mn := by
  apply listMin_ne_nil
  have hfrac : (resolveRegime s).2.pre_step_sample_fraction = s.pre_step_sample_fraction :=
    (resolveRegime_frame s).2.2.1
  have hne : (mainCellsOf s array xyz dt).flatten ≠ [] := by
    unfold mainCellsOf pipeline
    rw [hfrac]
    exact mainAll_flatten_ne_nil _ _ _ _ hdx hdy
  intro hmap
  apply hne
  rw [← List.map_flatten] at hmap
  exact List.map_eq_nil.1 hmap

/-- Every entry of the main-step p-value matrix is an engine p-value. -/
theorem pvals_entry_is_run (s : PairwiseMultCI) (array : Mat) (xyz : List ℕ)
    (dt : Option Mat) (q : ℚ)
    (hq : q ∈ ((mainCellsOf s array xyz dt).map (fun r => r.map Prod.snd)).flatten) :
    ∃ xa ya za xta yta zta ta,
      q = ((resolveRegime s).2.cond_ind_test.run xa ya za xta yta zta ta).2 := by
  rw [← List.map_flatten] at hq
  obtain ⟨c, hc, hcq⟩ := List.mem_map.1 hq
  obtain ⟨j, jj, zt, hform⟩ := mainAll_cell_mem _ _ _ _ c hc
  obtain ⟨xa, ya, za, zta, hrun⟩ := mainCell_is_run _ _ _ _ j jj zt
  rw [hform, hrun] at hcq
  exact ⟨xa, ya, za, _, _, zta, _, hcq.symm⟩

/-- C1: in the p-value regime, the evaluation (when the X and Y blocks
are non-empty and the engine returns non-negative p-values) returns the
maximum absolute main-step statistic — hence a non-negative statistic —
together with the Bonferroni-aggregated significance
`min(1, dim_x * dim_y * min(p_vals_main))`, which lies in `[0, 1]`. -/
theorem C1_pvalue_regime_aggregation (s : PairwiseMultCI) (array : Mat) (xyz : List ℕ)
    (dt : Option Mat)
    (hreg : (resolveRegime s).1 = false)
    (hdx : (mkSplit array xyz dt s.pre_step_sample_fraction).dim_x ≠ 0)
    (hdy : (mkSplit array xyz dt s.pre_step_sample_fraction).dim_y ≠ 0)
    (hp : ∀ x y z xt yt zt t, 0 ≤ (s.cond_ind_test.run x y z xt yt zt t).2) :
    ∃ mx p,
      calculate s array xyz dt = .ok ((mx, some p), s) ∧
      listMax ((testStatsMain s array xyz dt).flatten.map (fun q => |q|)) = some mx ∧
      0 ≤ mx ∧
      p = min ((listMin (pValsMain s array xyz dt).flatten).getD 0 *
        ((mkSplit array xyz dt s.pre_step_sample_fraction).dim_x : ℚ) *
        ((mkSplit array xyz dt s.pre_step_sample_fraction).dim_y : ℚ)) 1 ∧
      0 ≤ p ∧ p ≤ 1 := by
  have hres : resolveRegime s = (false, s) := resolveRegime_of_false hreg
  have hsig : ¬ s.cond_ind_test.significance = "fixed_thres" := by
    intro hc
    rw [(resolveRegime_fst s).2 (Or.inr hc)] at hreg
    exact absurd hreg (by simp)
  obtain ⟨mx, hmx⟩ := stats_listMax_some s array xyz dt hdx hdy
  obtain ⟨mn, hmn⟩ := pvals_listMin_some s array xyz dt hdx hdy
  have hmn0 : 0 ≤ mn := by
    obtain ⟨hmem, _⟩ := listMin_spec hmn
    obtain ⟨xa, ya, za, xta, yta, zta, ta, hqr⟩ :=
      pvals_entry_is_run s array xyz dt mn hmem
    rw [hres] at hqr
    rw [hqr]
    exact hp xa ya za xta yta zta ta
  have hmx0 : 0 ≤ mx := by
    obtain ⟨hmem, _⟩ := listMax_spec hmx
    obtain ⟨q, _, hq⟩ := List.mem_map.1 (by
      have : (testStatsMain s array xyz dt).flatten.map (fun q => |q|) =
          ((mainCellsOf s array xyz dt).map (fun r => r.map Prod.fst)).flatten.map
            (fun q => |q|) := rfl
      rw [← this] at hmem
      exact hmem)
    rw [← hq]
    exact abs_nonneg q
  refine ⟨mx, min (mn * ((mkSplit array xyz dt s.pre_step_sample_fraction).dim_x : ℚ) *
    ((mkSplit array xyz dt s.pre_step_sample_fraction).dim_y : ℚ)) 1, ?_, hmx, hmx0, ?_, ?_, ?_⟩
  · rw [calculate_eq]
    rw [hres]
    simp only [Bool.false_and, Bool.false_eq_true, if_false]
    rw [hmx]
    rw [if_pos hsig]
    rw [hmn]
    rfl
  · unfold pValsMain
    rw [hmn]
    rfl
  · apply le_min _ zero_le_one
    apply mul_nonneg (mul_nonneg hmn0 (Nat.cast_nonneg _)) (Nat.cast_nonneg _)
  · exact min_le_right _ _

/-- State for the C1 witness. -/
def sC1 : PairwiseMultCI := PairwiseMultCI.init engConst 0 (1/2) none "analytic"

theorem C1_witness :
    ∃ mx p,
      calculate sC1 arrTwo [0, 1] none = .ok ((mx, some p), sC1) ∧
      listMax ((testStatsMain sC1 arrTwo [0, 1] none).flatten.map (fun q => |q|)) = some mx ∧
      0 ≤ mx ∧
      p = min ((listMin (pValsMain sC1 arrTwo [0, 1] none).flatten).getD 0 *
        ((mkSplit arrTwo [0, 1] none sC1.pre_step_sample_fraction).dim_x : ℚ) *
        ((mkSplit arrTwo [0, 1] none sC1.pre_step_sample_fraction).dim_y : ℚ)) 1 ∧
      0 ≤ p ∧ p ≤ 1 :=
  C1_pvalue_regime_aggregation sC1 arrTwo [0, 1] none rfl (by decide) (by decide)
    (fun _ _ _ _ _ _ _ => by norm_num [engConst, sC1, PairwiseMultCI.init])

/-!
## C8 — sample splitting
-/

/-- C8: when `floor(fraction * T)` lies in `{1, …, T-1}`, the pre-step
block consists exactly of columns `[0, split)` and the main-step block of
columns `[split, T)` of each row of the observation matrix — disjoint,
and together covering the column range — and the same split is applied to
the (transposed) type-tag matrices along their row (time) axis. -/
theorem C8_sample_splitting (array : Mat) (xyz : List ℕ) (dtm : Mat) (frac : ℚ)
    (hfrac0 : 0 < frac) (hfrac1 : frac < 1)
    (hrect : ∀ r ∈ array, r.length = ncols array)
    (hsfb1 : 1 ≤ (mkSplit array xyz (some dtm) frac).sfb)
    (hsfb2 : (mkSplit array xyz (some dtm) frac).sfb ≤ ncols array - 1) :
    (mkSplit array xyz (some dtm) frac).sfb = (⌊frac * (ncols array : ℚ)⌋).toNat ∧
    (mkSplit array xyz (some dtm) frac).x_s1 =
      selectRows (array.map (fun r => r.take (mkSplit array xyz (some dtm) frac).sfb))
        (npWhere xyz 0) ∧
    (mkSplit array xyz (some dtm) frac).x_s2 =
      selectRows (array.map (fun r => r.drop (mkSplit array xyz (some dtm) frac).sfb))
        (npWhere xyz 0) ∧
    (∀ r ∈ array, r.take (mkSplit array xyz (some dtm) frac).sfb ++
      r.drop (mkSplit array xyz (some dtm) frac).sfb = r) ∧
    (∀ r ∈ array,
      (r.take (mkSplit array xyz (some dtm) frac).sfb).length =
        (mkSplit array xyz (some dtm) frac).sfb ∧
      (r.drop (mkSplit array xyz (some dtm) frac).sfb).length =
        ncols array - (mkSplit array xyz (some dtm) frac).sfb) ∧
    (∀ r ∈ array, ∀ i < (mkSplit array xyz (some dtm) frac).sfb,
      (r.take (mkSplit array xyz (some dtm) frac).sfb).getD i 0 = r.getD i 0) ∧
    (∀ r ∈ array, ∀ i,
      (r.drop (mkSplit array xyz (some dtm) frac).sfb).getD i 0 =
        r.getD ((mkSplit array xyz (some dtm) frac).sfb + i) 0) ∧
    ((mkSplit array xyz (some dtm) frac).x_type_s1 =
      some ((transposeM (selectRows dtm (npWhere xyz 0))).take
        (mkSplit array xyz (some dtm) frac).sfb) ∧
     (mkSplit array xyz (some dtm) frac).x_type_s2 =
      some ((transposeM (selectRows dtm (npWhere xyz 0))).drop
        (mkSplit array xyz (some dtm) frac).sfb) ∧
     (mkSplit array xyz (some dtm) frac).y_type_s1 =
      some ((transposeM (selectRows dtm (npWhere xyz 1))).take
        (mkSplit array xyz (some dtm) frac).sfb) ∧
     (mkSplit array xyz (some dtm) frac).y_type_s2 =
      some ((transposeM (selectRows dtm (npWhere xyz 1))).drop
        (mkSplit array xyz (some dtm) frac).sfb) ∧
     (mkSplit array xyz (some dtm) frac).z_type_s1 =
      some ((transposeM (selectRows dtm (npWhere xyz 2))).take
        (mkSplit array xyz (some dtm) frac).sfb) ∧
     (mkSplit array xyz (some dtm) frac).z_type_s2 =
      some ((transposeM (selectRows dtm (npWhere xyz 2))).drop
        (mkSplit array xyz (some dtm) frac).sfb)) := by
  have hT : 1 ≤ ncols array := by
    by_contra hc
    have : ncols array = 0 := by omega
    rw [this] at hsfb2
    omega
  have hle : (mkSplit array xyz (some dtm) frac).sfb ≤ ncols array := by omega
  refine ⟨rfl, rfl, rfl, ?_, ?_, ?_, ?_, rfl, rfl, rfl, rfl, rfl, rfl⟩
  · intro r _
    exact List.take_append_drop _ r
  · intro r hr
    rw [List.length_take, List.length_drop, hrect r hr]
    exact ⟨min_eq_left hle, rfl⟩
  · intro r _ i hi
    rw [List.getD_eq_getElem?_getD, List.getD_eq_getElem?_getD, List.getElem?_take, if_pos hi]
  · intro r _ i
    rw [List.getD_eq_getElem?_getD, List.getD_eq_getElem?_getD, List.getElem?_drop]

/-- Concrete data for the C8 witness. -/
def arrC8 : Mat := [[1, 2, 3], [4, 5, 6]]
def dtC8 : Mat := [[0, 0, 0], [1, 1, 1]]

theorem C8_witness :
    (∀ r ∈ arrC8, r.take (mkSplit arrC8 [0, 1] (some dtC8) (1/3)).sfb ++
      r.drop (mkSplit arrC8 [0, 1] (some dtC8) (1/3)).sfb = r) ∧
    (mkSplit arrC8 [0, 1] (some dtC8) (1/3)).sfb = (⌊(1/3 : ℚ) * ((3 : ℕ) : ℚ)⌋).toNat := by
  have hs : (mkSplit arrC8 [0, 1] (some dtC8) (1/3)).sfb = 1 := by
    with_unfolding_all rfl
  have h := C8_sample_splitting arrC8 [0, 1] dtC8 (1/3) (by norm_num) (by norm_num)
    (by
      intro r hr
      simp only [arrC8, List.mem_cons, List.not_mem_nil, or_false] at hr
      rcases hr with rfl | rfl <;> rfl)
    (by rw [hs]) (by rw [hs]; decide)
  refine ⟨h.2.2.2.1, ?_⟩
  exact h.1

/-!
## C4 — type tags of the augmented conditioning set (code bug)

The engine below reports, as its statistic, the number of columns of the
z-type matrix it receives, so the returned statistic matrix records
exactly which type tags each pair-evaluation was given.
-/

/-- Engine whose statistic is the column count of the received z-type
block and whose p-value is the sum of the x block (used to steer the
pre-step classification). -/
def engC4x : Engine :=
  ⟨"analytic", fun x _ _ _ _ zt _ => ((((zt.getD []).headD []).length : ℚ), x.flatten.sum)⟩

/-- Engine whose statistic is the column count of the received z-type
block and whose p-value is the sum of the y block. -/
def engC4y : Engine :=
  ⟨"analytic", fun _ y _ _ _ zt _ => ((((zt.getD []).headD []).length : ℚ), y.flatten.sum)⟩

/-- dim_x = 2, dim_y = 1, dim_z = 1, T = 4, split = 1; the pre-step
classifies only the pair (1,0) as independent, so the main-step pair
(0,0) takes the X-side branch with auxiliary component x₁. -/
def sC4x : PairwiseMultCI := PairwiseMultCI.init engC4x (1/2) (1/4) none "analytic"
def arrC4x : Mat := [[0, 0, 0, 0], [1, 0, 0, 0], [0, 0, 0, 0], [0, 0, 0, 0]]
def dtC4x : Mat := [[1, 1, 1, 1], [2, 2, 2, 2], [3, 3, 3, 3], [7, 7, 7, 7]]

/-- dim_x = 1, dim_y = 2, dim_z = 1, T = 4, split = 1; the pre-step
classifies only the pair (0,1) as independent, so the main-step pair
(0,0) takes the Y-side branch (auxiliary component y₁), which overwrites
`z_type_s2`; the later pair (0,1) has an empty auxiliary set. -/
def sC4y : PairwiseMultCI := PairwiseMultCI.init engC4y (1/2) (1/4) none "analytic"
def arrC4y : Mat := [[0, 0, 0, 0], [0, 0, 0, 0], [1, 0, 0, 0], [0, 0, 0, 0]]
def dtC4y : Mat := [[1, 1, 1, 1], [2, 2, 2, 2], [5, 5, 5, 5], [7, 7, 7, 7]]

/-- C4 failing inputs, evaluated on the faithful model.

First input (`sC4x`): the main-step pair (0,0) takes the X-side branch
with a non-empty auxiliary set, so by the claim its engine call should
receive the augmented z-type block `hstack(z_type_s2, x_type_s2[:, [1]])`
(2 columns); the recorded statistic is `1`: the engine received the
unaugmented 1-column `z_type_s2` (the augmented matrix is assigned to the
dead local `z_type` in the source and never passed).  The pair (1,0) has
an empty auxiliary set and correctly receives 1 column.

Second input (`sC4y`): before the main step, `z_type_s2` is the 1-column
matrix `[[7],[7],[7]]`; after the pair (0,0) takes the Y-side branch the
loop's `z_type_s2` has been overwritten with the 2-column augmented
matrix, and the later pair (0,1) — whose auxiliary set is empty, so by
the claim it should receive the original 1-column block — records a
2-column z-type block. -/
theorem C4_type_tag_bug :
    testStatsMain sC4x arrC4x [0, 0, 1, 2] (some dtC4x) = [[1], [1]] ∧
    (mkSplit arrC4y [0, 1, 1, 2] (some dtC4y) sC4y.pre_step_sample_fraction).z_type_s2 =
      some [[7], [7], [7]] ∧
    (pipeline (resolveRegime sC4y).2 (resolveRegime sC4y).1 arrC4y [0, 1, 1, 2]
      (some dtC4y)).2 = some [[7, 5], [7, 5], [7, 5]] ∧
    testStatsMain sC4y arrC4y [0, 1, 1, 2] (some dtC4y) = [[2, 2]] := by
  refine ⟨?_, ?_, ?_, ?_⟩
  · with_unfolding_all rfl
  · with_unfolding_all rfl
  · with_unfolding_all rfl
  · with_unfolding_all rfl

/-!
## C9 — swapping the roles of X and Y
-/

/-- Exchange of the X and Y role tags. -/
def swapTag (t : ℕ) : ℕ := if t = 0 then 1 else if t = 1 then 0 else t

/-- Swap the roles of X and Y in the role-index vector (Y′ = X, X′ = Y). -/
def swapRoles (xyz : List ℕ) : List ℕ := xyz.map swapTag

theorem enumFrom_map {α β : Type} (f : α → β) (l : List α) (n : ℕ) :
    (l.map f).enumFrom n = (l.enumFrom n).map (fun p => (p.1, f p.2)) := by
  induction l generalizing n with
  | nil => rfl
  | cons a t ih => simp only [List.map_cons, List.enumFrom, ih]

theorem npWhere_map (f : ℕ → ℕ) (xs : List ℕ) (v : ℕ) :
    npWhere (xs.map f) v = (xs.enum.filter (fun p => f p.2 == v)).map (·.1) := by
  unfold npWhere
  unfold List.enum
  rw [enumFrom_map, List.filter_map, List.map_map]
  rfl

theorem npWhere_swap_zero (xyz : List ℕ) : npWhere (swapRoles xyz) 0 = npWhere xyz 1 := by
  unfold swapRoles
  rw [npWhere_map]
  unfold npWhere
  congr 1
  apply List.filter_congr
  intro p _
  rcases p with ⟨i, t⟩
  match t with
  | 0 => rfl
  | 1 => rfl
  | (n + 2) => simp [swapTag]

theorem npWhere_swap_one (xyz : List ℕ) : npWhere (swapRoles xyz) 1 = npWhere xyz 0 := by
  unfold swapRoles
  rw [npWhere_map]
  unfold npWhere
  congr 1
  apply List.filter_congr
  intro p _
  rcases p with ⟨i, t⟩
  match t with
  | 0 => rfl
  | 1 => rfl
  | (n + 2) => simp [swapTag]

theorem npWhere_swap_two (xyz : List ℕ) : npWhere (swapRoles xyz) 2 = npWhere xyz 2 := by
  unfold swapRoles
  rw [npWhere_map]
  unfold npWhere
  congr 1
  apply List.filter_congr
  intro p _
  rcases p with ⟨i, t⟩
  match t with
  | 0 => rfl
  | 1 => rfl
  | (n + 2) => simp [swapTag]

/-- With no type tags, swapping the X and Y roles swaps the corresponding
fields of the split data and leaves everything else unchanged. -/
theorem mkSplit_swap (array : Mat) (xyz : List ℕ) (frac : ℚ) :
    (mkSplit array (swapRoles xyz) none frac).dim_x = (mkSplit array xyz none frac).dim_y ∧
    (mkSplit array (swapRoles xyz) none frac).dim_y = (mkSplit array xyz none frac).dim_x ∧
    (mkSplit array (swapRoles xyz) none frac).dim_z = (mkSplit array xyz none frac).dim_z ∧
    (mkSplit array (swapRoles xyz) none frac).T = (mkSplit array xyz none frac).T ∧
    (mkSplit array (swapRoles xyz) none frac).sfb = (mkSplit array xyz none frac).sfb ∧
    (mkSplit array (swapRoles xyz) none frac).x_s1 = (mkSplit array xyz none frac).y_s1 ∧
    (mkSplit array (swapRoles xyz) none frac).y_s1 = (mkSplit array xyz none frac).x_s1 ∧
    (mkSplit array (swapRoles xyz) none frac).z_s1 = (mkSplit array xyz none frac).z_s1 ∧
    (mkSplit array (swapRoles xyz) none frac).x_s2 = (mkSplit array xyz none frac).y_s2 ∧
    (mkSplit array (swapRoles xyz) none frac).y_s2 = (mkSplit array xyz none frac).x_s2 ∧
    (mkSplit array (swapRoles xyz) none frac).z_s2 = (mkSplit array xyz none frac).z_s2 ∧
    (mkSplit array (swapRoles xyz) none frac).x_type_s1 = none ∧
    (mkSplit array (swapRoles xyz) none frac).y_type_s1 = none ∧
    (mkSplit array (swapRoles xyz) none frac).z_type_s1 = none ∧
    (mkSplit array (swapRoles xyz) none frac).x_type_s2 = none ∧
    (mkSplit array (swapRoles xyz) none frac).y_type_s2 = none ∧
    (mkSplit array (swapRoles xyz) none frac).z_type_s2 = none ∧
    (mkSplit array xyz none frac).x_type_s2 = none ∧
    (mkSplit array xyz none frac).y_type_s2 = none ∧
    (mkSplit array xyz none frac).z_type_s2 = none := by
  unfold mkSplit
  rw [npWhere_swap_zero, npWhere_swap_one, npWhere_swap_two]
  dsimp only
  refine ⟨rfl, rfl, rfl, rfl, rfl, rfl, rfl, rfl, rfl, rfl, rfl, rfl, rfl, rfl, rfl, rfl,
    rfl, rfl, rfl, rfl⟩

theorem filter_beq_range (m jj : ℕ) (R : ℕ → Bool) :
    (List.range m).filter (fun b => (b == jj) && R b) =
      if decide (jj < m) && R jj then [jj] else [] := by
  induction m with
  | zero => simp
  | succ m ih =>
    rw [List.range_succ, List.filter_append, ih]
    by_cases hm : jj = m
    · subst hm
      by_cases hR : R jj = true <;>
        simp [hR, List.filter_cons, Nat.lt_irrefl, Nat.lt_succ_self]
    · have hd : decide (jj < m) = decide (jj < m + 1) :=
        decide_eq_decide.2 (by omega)
      have hne : (m == jj) = false := by
        simp [Ne.symm hm]
      simp [List.filter_cons, hne, hd]

theorem grid_filter_snd (L : List ℕ) (m jj : ℕ) (Q : ℕ → ℕ → Bool) :
    (L.flatMap (fun a => ((List.range m).filter (Q a)).map (fun b => (a, b)))).filter
        (fun p => p.2 == jj) =
      (L.filter (fun a => Q a jj && decide (jj < m))).map (fun a => (a, jj)) := by
  induction L with
  | nil => rfl
  | cons a L ih =>
    rw [List.flatMap_cons, List.filter_append, ih, List.filter_map]
    have hcomp : ((fun p : ℕ × ℕ => p.2 == jj) ∘ (fun b => (a, b))) = (fun b => b == jj) := rfl
    rw [hcomp, List.filter_filter, filter_beq_range m jj (Q a), List.filter_cons]
    by_cases h1 : Q a jj = true <;> by_cases h2 : jj < m <;> simp [h1, h2]

theorem grid_filter_fst (L : List ℕ) (inner : ℕ → List ℕ) (j : ℕ) (hnd : L.Nodup) :
    (L.flatMap (fun a => (inner a).map (fun b => (a, b)))).filter (fun p => p.1 == j) =
      if j ∈ L then (inner j).map (fun b => (j, b)) else [] := by
  induction L with
  | nil => simp
  | cons a L ih =>
    rw [List.flatMap_cons, List.filter_append, List.filter_map]
    have hcomp : ((fun p : ℕ × ℕ => p.1 == j) ∘ (fun b => (a, b))) = (fun _ => a == j) := rfl
    rw [hcomp]
    obtain ⟨hna, hndL⟩ := List.nodup_cons.1 hnd
    rw [ih hndL]
    by_cases haj : a = j
    · subst haj
      rw [if_neg hna, if_pos (List.mem_cons_self _ _)]
      simp
    · have hne : (a == j) = false := by simp [haj]
      simp only [hne, List.filter_false, List.nil_append]
      have hcond : (j ∈ L) ↔ (j ∈ a :: L) := by
        constructor
        · exact fun h => List.mem_cons_of_mem _ h
        · intro h
          rcases List.mem_cons.1 h with h' | h'
          · exact absurd h'.symm haj
          · exact h'
      exact if_congr hcond rfl rfl

/-- Membership in the independence set. -/
theorem mem_indepSet (alpha thres : ℚ) (ftb : Bool) (pre : Mat) (dx dy a b : ℕ) :
    (a, b) ∈ indepSet alpha thres ftb pre dx dy ↔
      a < dx ∧ b < dy ∧ preTest alpha thres ftb pre a b = true := by
  simp only [indepSet, List.mem_flatMap, List.mem_map, List.mem_filter, List.mem_range,
    Prod.mk.injEq]
  constructor
  · rintro ⟨j, hj, jj, ⟨⟨hjj, hpred⟩, rfl, rfl⟩⟩
    exact ⟨hj, hjj, hpred⟩
  · rintro ⟨ha, hb, hpred⟩
    exact ⟨a, ha, b, ⟨⟨hb, hpred⟩, rfl, rfl⟩⟩

/-- Canonical form of `indicesX` over a computed independence set. -/
theorem indicesX_indepSet (alpha thres : ℚ) (ftb : Bool) (pre : Mat) (dx dy j jj : ℕ) :
    indicesX (indepSet alpha thres ftb pre dx dy) j jj =
      (List.range dx).filter
        (fun a => preTest alpha thres ftb pre a jj && decide (jj < dy) && (a != j)) := by
  unfold indicesX
  by_cases hc : (((indepSet alpha thres ftb pre dx dy).map Prod.snd).contains jj : Bool) = true
  · rw [if_pos hc]
    unfold indepSet
    rw [grid_filter_snd, List.map_map]
    have hid : (Prod.fst ∘ fun a : ℕ => (a, jj)) = id := rfl
    rw [hid, List.map_id, List.filter_filter]
    apply List.filter_congr
    intro a _
    exact Bool.and_comm _ _
  · rw [if_neg hc]
    symm
    rw [List.filter_eq_nil_iff]
    intro a ha hpred
    rw [Bool.and_eq_true, Bool.and_eq_true] at hpred
    obtain ⟨⟨hQ, hdy⟩, _⟩ := hpred
    have hjj : jj < dy := of_decide_eq_true hdy
    have hmem : (a, jj) ∈ indepSet alpha thres ftb pre dx dy :=
      (mem_indepSet alpha thres ftb pre dx dy a jj).2 ⟨List.mem_range.1 ha, hjj, hQ⟩
    have : jj ∈ (indepSet alpha thres ftb pre dx dy).map Prod.snd :=
      List.mem_map.2 ⟨(a, jj), hmem, rfl⟩
    exact hc (by simpa [List.contains] using this)

/-- Canonical form of `indicesY` over a computed independence set. -/
theorem indicesY_indepSet (alpha thres : ℚ) (ftb : Bool) (pre : Mat) (dx dy j jj : ℕ) :
    indicesY (indepSet alpha thres ftb pre dx dy) j jj =
      (List.range dy).filter
        (fun b => preTest alpha thres ftb pre j b && decide (j < dx) && (b != jj)) := by
  unfold indicesY
  by_cases hc : (((indepSet alpha thres ftb pre dx dy).map Prod.fst).contains j : Bool) = true
  · have hj : j < dx := by
      have hmem : j ∈ (indepSet alpha thres ftb pre dx dy).map Prod.fst := by
        simpa [List.contains] using hc
      obtain ⟨p, hp, hpj⟩ := List.mem_map.1 hmem
      obtain ⟨p1, p2⟩ := p
      cases hpj
      exact ((mem_indepSet alpha thres ftb pre dx dy _ p2).1 hp).1
    rw [if_pos hc]
    unfold indepSet
    rw [grid_filter_fst _ _ _ (List.nodup_range dx), if_pos (List.mem_range.2 hj),
      List.map_map]
    have hid : (Prod.snd ∘ fun b : ℕ => (j, b)) = id := rfl
    rw [hid, List.map_id, List.filter_filter]
    apply List.filter_congr
    intro b _
    have hd : decide (j < dx) = true := decide_eq_true hj
    rw [hd]
    cases preTest alpha thres ftb pre j b <;> cases (b != jj) <;> simp
  · rw [if_neg hc]
    symm
    rw [List.filter_eq_nil_iff]
    intro b hb hpred
    rw [Bool.and_eq_true, Bool.and_eq_true] at hpred
    obtain ⟨⟨hQ, hdx⟩, _⟩ := hpred
    have hj : j < dx := of_decide_eq_true hdx
    have hmem : (j, b) ∈ indepSet alpha thres ftb pre dx dy :=
      (mem_indepSet alpha thres ftb pre dx dy j b).2 ⟨hj, List.mem_range.1 hb, hQ⟩
    have : j ∈ (indepSet alpha thres ftb pre dx dy).map Prod.fst :=
      List.mem_map.2 ⟨(j, b), hmem, rfl⟩
    exact hc (by simpa [List.contains] using this)

/-- Entry of the pre-step matrix at an in-range position. -/
theorem preMatrix_entry (eng : Engine) (ftb : Bool) (d : SplitData) (j jj : ℕ)
    (hj : j < d.dim_x) (hjj : jj < d.dim_y) :
    ((preMatrix eng ftb d).getD j []).getD jj 0 =
      (if ftb = false then
        (eng.run (reshape [d.x_s1.getD j []] d.sfb 1)
                 (reshape [d.y_s1.getD jj []] d.sfb 1)
                 (reshape d.z_s1 d.sfb d.dim_z)
                 d.x_type_s1 d.y_type_s1 d.z_type_s1 none).2
      else
        (eng.run (reshape [d.x_s1.getD j []] d.sfb 1)
                 (reshape [d.y_s1.getD jj []] d.sfb 1)
                 (reshape d.z_s1 d.sfb d.dim_z)
                 d.x_type_s1 d.y_type_s1 d.z_type_s1 (some 999)).1) := by
  unfold preMatrix
  rw [getD_map_range _ hj, getD_map_range _ hjj]

/-- Entry of the pre-step matrix when the row index is out of range. -/
theorem preMatrix_entry_ge_row (eng : Engine) (ftb : Bool) (d : SplitData) (j jj : ℕ)
    (hj : d.dim_x ≤ j) :
    ((preMatrix eng ftb d).getD j []).getD jj 0 = 0 := by
  unfold preMatrix
  rw [getD_map_range_ge _ hj]
  rfl

/-- Entry of the pre-step matrix when the column index is out of range. -/
theorem preMatrix_entry_ge_col (eng : Engine) (ftb : Bool) (d : SplitData) (j jj : ℕ)
    (hj : j < d.dim_x) (hjj : d.dim_y ≤ jj) :
    ((preMatrix eng ftb d).getD j []).getD jj 0 = 0 := by
  unfold preMatrix
  rw [getD_map_range _ hj, getD_map_range_ge _ hjj]

theorem headD_eq_getD_zero {α : Type} (l : List α) (d : α) : l.headD d = l.getD 0 d := by
  cases l <;> rfl

/-- Transpose of a non-empty grid. -/
theorem transposeM_grid (v : ℕ → ℕ → ℚ) (n m : ℕ) (hn : n ≠ 0) :
    transposeM ((List.range n).map (fun a => (List.range m).map (fun b => v a b))) =
      (List.range m).map (fun b => (List.range n).map (fun a => v a b)) := by
  unfold transposeM ncols
  have hhead : (((List.range n).map (fun a =>
      (List.range m).map (fun b => v a b))).headD []).length = m := by
    rw [headD_eq_getD_zero, getD_map_range _ (Nat.pos_of_ne_zero hn)]
    rw [List.length_map, List.length_range]
  rw [hhead]
  apply List.map_congr_left
  intro i hi
  rw [List.map_map]
  apply List.map_congr_left
  intro a _
  show ((List.range m).map (fun b => v a b)).getD i 0 = v a i
  exact getD_map_range _ (List.mem_range.1 hi) 0

/-- Pre-step matrix entries transpose under role swap for a symmetric
engine (out-of-range entries are 0 on both sides). -/
theorem preEntry_swap (eng : Engine) (ftb : Bool) (array : Mat) (xyz : List ℕ) (frac : ℚ)
    (hsym : ∀ x y z t, eng.run x y z none none none t = eng.run y x z none none none t)
    (a b : ℕ) :
    ((preMatrix eng ftb (mkSplit array (swapRoles xyz) none frac)).getD b []).getD a 0 =
      ((preMatrix eng ftb (mkSplit array xyz none frac)).getD a []).getD b 0 := by
  obtain ⟨hdX, hdY, hdZ, hT, hsfb, hx1, hy1, hz1, hx2, hy2, hz2,
    hxt1, hyt1, hzt1, hxt2, hyt2, hzt2, hoxt2, hoyt2, hozt2⟩ := mkSplit_swap array xyz frac
  by_cases ha : a < (mkSplit array xyz none frac).dim_x
  · by_cases hb : b < (mkSplit array xyz none frac).dim_y
    · rw [preMatrix_entry eng ftb _ b a (by rw [hdX]; exact hb) (by rw [hdY]; exact ha)]
      rw [preMatrix_entry eng ftb _ a b ha hb]
      rw [hx1, hy1, hz1, hsfb, hdZ, hxt1, hyt1, hzt1]
      have hoxt1 : (mkSplit array xyz none frac).x_type_s1 = none := rfl
      have hoyt1 : (mkSplit array xyz none frac).y_type_s1 = none := rfl
      have hozt1 : (mkSplit array xyz none frac).z_type_s1 = none := rfl
      rw [hoxt1, hoyt1, hozt1]
      cases ftb with
      | false =>
        rw [if_pos rfl, if_pos rfl, hsym]
      | true =>
        have hc : ¬ (true = false) := by simp
        rw [if_neg hc, if_neg hc, hsym]
    · rw [preMatrix_entry_ge_col eng ftb _ a b ha (by omega)]
      rw [preMatrix_entry_ge_row eng ftb _ b a (by rw [hdX]; omega)]
  · by_cases hb : b < (mkSplit array xyz none frac).dim_y
    · rw [preMatrix_entry_ge_row eng ftb _ a b (by omega)]
      rw [preMatrix_entry_ge_col eng ftb _ b a (by rw [hdX]; exact hb) (by rw [hdY]; omega)]
    · rw [preMatrix_entry_ge_row eng ftb _ a b (by omega)]
      rw [preMatrix_entry_ge_row eng ftb _ b a (by rw [hdX]; omega)]

/-- The classification test transposes under role swap. -/
theorem preTest_swap (alpha thres : ℚ) (eng : Engine) (ftb : Bool) (array : Mat)
    (xyz : List ℕ) (frac : ℚ)
    (hsym : ∀ x y z t, eng.run x y z none none none t = eng.run y x z none none none t)
    (a b : ℕ) :
    preTest alpha thres ftb (preMatrix eng ftb (mkSplit array (swapRoles xyz) none frac)) b a =
      preTest alpha thres ftb (preMatrix eng ftb (mkSplit array xyz none frac)) a b := by
  unfold preTest
  rw [preEntry_swap eng ftb array xyz frac hsym a b]

/-- One main-step cell of the swapped run equals the mirrored cell of the
original run, given the swapped split data, an engine symmetric in its
first two arguments, and no positive tie at the mirrored pair. -/
theorem mainCell_swap (eng : Engine) (ftb : Bool) (d d' : SplitData)
    (iset iset' : List (ℕ × ℕ)) (a b : ℕ)
    (hsym : ∀ x y z t, eng.run x y z none none none t = eng.run y x z none none none t)
    (hx : d'.x_s2 = d.y_s2) (hy : d'.y_s2 = d.x_s2) (hz : d'.z_s2 = d.z_s2)
    (hdz : d'.dim_z = d.dim_z) (hT : d'.T = d.T) (hsfb : d'.sfb = d.sfb)
    (hxt : d'.x_type_s2 = none) (hyt : d'.y_type_s2 = none)
    (hxt0 : d.x_type_s2 = none) (hyt0 : d.y_type_s2 = none)
    (hiY : indicesY iset' b a = indicesX iset a b)
    (hiX : indicesX iset' b a = indicesY iset a b)
    (hnotie : (indicesX iset a b).length = (indicesY iset a b).length →
      indicesX iset a b = []) :
    (mainCell eng ftb d' iset' b a none).1 = (mainCell eng ftb d iset a b none).1 := by
  unfold mainCell
  rw [hiY, hiX, hx, hy, hz, hdz, hT, hsfb, hxt, hyt, hxt0, hyt0]
  dsimp only
  by_cases h0 : (indicesX iset a b).length + (indicesY iset a b).length > 0
  · by_cases hgt : (indicesX iset a b).length > (indicesY iset a b).length
    · have c1 : (indicesY iset a b).length + (indicesX iset a b).length > 0 := by omega
      have c2 : ¬ ((indicesY iset a b).length > (indicesX iset a b).length) := by omega
      rw [if_pos c1, if_neg c2, if_pos h0, if_pos hgt]
      exact hsym _ _ _ _
    · have hlt : (indicesX iset a b).length < (indicesY iset a b).length := by
        rcases Nat.lt_or_ge (indicesX iset a b).length (indicesY iset a b).length with h | h
        · exact h
        · exfalso
          have heq : (indicesX iset a b).length = (indicesY iset a b).length := by omega
          have hnil := hnotie heq
          rw [hnil] at heq h0
          simp only [List.length_nil] at heq h0
          omega
      have c1 : (indicesY iset a b).length + (indicesX iset a b).length > 0 := by omega
      have c2 : (indicesY iset a b).length > (indicesX iset a b).length := by omega
      rw [if_pos c1, if_pos c2, if_pos h0, if_neg hgt]
      exact hsym _ _ _ _
  · have c1 : ¬ ((indicesY iset a b).length + (indicesX iset a b).length > 0) := by omega
    rw [if_neg c1, if_neg h0]
    exact hsym _ _ _ _

theorem indicesY_swap (alpha thres : ℚ) (eng : Engine) (ftb : Bool) (array : Mat)
    (xyz : List ℕ) (frac : ℚ)
    (hsym : ∀ x y z t, eng.run x y z none none none t = eng.run y x z none none none t)
    (a b : ℕ) :
    indicesY (indepSet alpha thres ftb
        (preMatrix eng ftb (mkSplit array (swapRoles xyz) none frac))
        (mkSplit array (swapRoles xyz) none frac).dim_x
        (mkSplit array (swapRoles xyz) none frac).dim_y) b a =
      indicesX (indepSet alpha thres ftb
        (preMatrix eng ftb (mkSplit array xyz none frac))
        (mkSplit array xyz none frac).dim_x (mkSplit array xyz none frac).dim_y) a b := by
  obtain ⟨hdX, hdY, _⟩ := mkSplit_swap array xyz frac
  rw [indicesY_indepSet, indicesX_indepSet, hdX, hdY]
  apply List.filter_congr
  intro c _
  rw [preTest_swap alpha thres eng ftb array xyz frac hsym c b]

theorem indicesX_swap (alpha thres : ℚ) (eng : Engine) (ftb : Bool) (array : Mat)
    (xyz : List ℕ) (frac : ℚ)
    (hsym : ∀ x y z t, eng.run x y z none none none t = eng.run y x z none none none t)
    (a b : ℕ) :
    indicesX (indepSet alpha thres ftb
        (preMatrix eng ftb (mkSplit array (swapRoles xyz) none frac))
        (mkSplit array (swapRoles xyz) none frac).dim_x
        (mkSplit array (swapRoles xyz) none frac).dim_y) b a =
      indicesY (indepSet alpha thres ftb
        (preMatrix eng ftb (mkSplit array xyz none frac))
        (mkSplit array xyz none frac).dim_x (mkSplit array xyz none frac).dim_y) a b := by
  obtain ⟨hdX, hdY, _⟩ := mkSplit_swap array xyz frac
  rw [indicesX_indepSet, indicesY_indepSet, hdX, hdY]
  apply List.filter_congr
  intro c _
  rw [preTest_swap alpha thres eng ftb array xyz frac hsym a c]

/-- Projection of a grid of pairs onto a component. -/
theorem grid_map_proj {α β : Type} (g : ℕ → ℕ → α) (pr : α → β) (n m : ℕ) :
    ((List.range n).map (fun i => (List.range m).map (fun j => g i j))).map
        (fun r => r.map pr) =
      (List.range n).map (fun i => (List.range m).map (fun j => pr (g i j))) := by
  rw [List.map_map]
  apply List.map_congr_left
  intro i _
  show ((List.range m).map (fun j => g i j)).map pr = (List.range m).map (fun j => pr (g i j))
  rw [List.map_map]
  rfl

theorem flatten_grid_swap_mem (w : ℕ → ℕ → ℚ) (n m : ℕ) (q : ℚ) :
    q ∈ ((List.range m).map (fun b => (List.range n).map (fun a => w a b))).flatten ↔
      q ∈ ((List.range n).map (fun a => (List.range m).map (fun b => w a b))).flatten := by
  rw [mem_flatten_grid, mem_flatten_grid]
  constructor
  · rintro ⟨b, hb, a, ha, rfl⟩
    exact ⟨a, ha, b, hb, rfl⟩
  · rintro ⟨a, ha, b, hb, rfl⟩
    exact ⟨b, hb, a, ha, rfl⟩

/-- The independence set computed by an evaluation starting from state `s`
(no type tags). -/
def preIndepSet (s : PairwiseMultCI) (array : Mat) (xyz : List ℕ) : List (ℕ × ℕ) :=
  indepSet (resolveRegime s).2.alpha_pre ((resolveRegime s).2.fixed_thres_pre.getD 0)
    (resolveRegime s).1
    (preMatrix (resolveRegime s).2.cond_ind_test (resolveRegime s).1
      (mkSplit array xyz none (resolveRegime s).2.pre_step_sample_fraction))
    (mkSplit array xyz none (resolveRegime s).2.pre_step_sample_fraction).dim_x
    (mkSplit array xyz none (resolveRegime s).2.pre_step_sample_fraction).dim_y

/-- C9 amended: for a univariate engine symmetric in its first two
arguments, with no type tags, swapping the roles of X and Y (Y′ = X,
X′ = Y) yields the identical evaluation result — in particular the same
aggregated statistic — and the main-step statistic matrix of the swapped
run is the transpose of the original one, PROVIDED that at no pair the
two candidate auxiliary sets tie at a positive size (at a positive tie
the `lix <= liy` tie-break conditions the original run on the Y side but
the swapped run on the X side, and the invariance fails — see the
counterexample). -/
theorem C9_amended_swap_symmetry (s : PairwiseMultCI) (array : Mat) (xyz : List ℕ)
    (hsym : ∀ x y z t, s.cond_ind_test.run x y z none none none t =
      s.cond_ind_test.run y x z none none none t)
    (hnotie : ∀ a b,
      (indicesX (preIndepSet s array xyz) a b).length =
        (indicesY (preIndepSet s array xyz) a b).length →
      indicesX (preIndepSet s array xyz) a b = [])
    (hdx : (mkSplit array xyz none s.pre_step_sample_fraction).dim_x ≠ 0) :
    calculate s array (swapRoles xyz) none = calculate s array xyz none ∧
    testStatsMain s array (swapRoles xyz) none =
      transposeM (testStatsMain s array xyz none) := by
  have hrun : (resolveRegime s).2.cond_ind_test.run = s.cond_ind_test.run :=
    (resolveRegime_frame s).2.2.2.2.2.1
  have hfrac : (resolveRegime s).2.pre_step_sample_fraction = s.pre_step_sample_fraction :=
    (resolveRegime_frame s).2.2.1
  have hdx' : (mkSplit array xyz none
      (resolveRegime s).2.pre_step_sample_fraction).dim_x ≠ 0 := by
    rw [hfrac]; exact hdx
  have hsym' : ∀ x y z t,
      (resolveRegime s).2.cond_ind_test.run x y z none none none t =
      (resolveRegime s).2.cond_ind_test.run y x z none none none t := by
    intro x y z t
    rw [hrun]
    exact hsym x y z t
  obtain ⟨hdX, hdY, hdZ, hT, hsfb, hx1, hy1, hz1, hx2, hy2, hz2,
    hxt1, hyt1, hzt1, hxt2, hyt2, hzt2, hoxt2, hoyt2, hozt2⟩ :=
    mkSplit_swap array xyz (resolveRegime s).2.pre_step_sample_fraction
  have hMC' : mainCellsOf s array (swapRoles xyz) none =
      (List.range (mkSplit array (swapRoles xyz) none
          (resolveRegime s).2.pre_step_sample_fraction).dim_x).map
        (fun b => (List.range (mkSplit array (swapRoles xyz) none
            (resolveRegime s).2.pre_step_sample_fraction).dim_y).map
          (fun a => (mainCell (resolveRegime s).2.cond_ind_test (resolveRegime s).1
            (mkSplit array xyz none (resolveRegime s).2.pre_step_sample_fraction)
            (preIndepSet s array xyz) a b none).1)) := by
    unfold mainCellsOf pipeline
    rw [mainAll_grid_of_ynone _ _ _ _ hyt2]
    dsimp only
    apply List.map_congr_left
    intro b _
    apply List.map_congr_left
    intro a _
    rw [hzt2]
    exact mainCell_swap _ _ _ _ _ _ a b hsym' hx2 hy2 hz2 hdZ hT hsfb hxt2 hyt2 hoxt2 hoyt2
      (indicesY_swap _ _ _ _ _ _ _ hsym' a b) (indicesX_swap _ _ _ _ _ _ _ hsym' a b)
      (hnotie a b)
  have hMC : mainCellsOf s array xyz none =
      (List.range (mkSplit array xyz none
          (resolveRegime s).2.pre_step_sample_fraction).dim_x).map
        (fun a => (List.range (mkSplit array xyz none
            (resolveRegime s).2.pre_step_sample_fraction).dim_y).map
          (fun b => (mainCell (resolveRegime s).2.cond_ind_test (resolveRegime s).1
            (mkSplit array xyz none (resolveRegime s).2.pre_step_sample_fraction)
            (preIndepSet s array xyz) a b none).1)) := by
    unfold mainCellsOf pipeline preIndepSet
    rw [mainAll_grid_of_ynone _ _ _ _ hoyt2]
    dsimp only
    simp only [hozt2]
  have hS' : (mainCellsOf s array (swapRoles xyz) none).map (fun r => r.map Prod.fst) =
      (List.range (mkSplit array (swapRoles xyz) none
          (resolveRegime s).2.pre_step_sample_fraction).dim_x).map
        (fun b => (List.range (mkSplit array (swapRoles xyz) none
            (resolveRegime s).2.pre_step_sample_fraction).dim_y).map
          (fun a => ((mainCell (resolveRegime s).2.cond_ind_test (resolveRegime s).1
            (mkSplit array xyz none (resolveRegime s).2.pre_step_sample_fraction)
            (preIndepSet s array xyz) a b none).1).1)) := by
    rw [hMC']
    exact grid_map_proj _ _ _ _
  have hS : (mainCellsOf s array xyz none).map (fun r => r.map Prod.fst) =
      (List.range (mkSplit array xyz none
          (resolveRegime s).2.pre_step_sample_fraction).dim_x).map
        (fun a => (List.range (mkSplit array xyz none
            (resolveRegime s).2.pre_step_sample_fraction).dim_y).map
          (fun b => ((mainCell (resolveRegime s).2.cond_ind_test (resolveRegime s).1
            (mkSplit array xyz none (resolveRegime s).2.pre_step_sample_fraction)
            (preIndepSet s array xyz) a b none).1).1)) := by
    rw [hMC]
    exact grid_map_proj _ _ _ _
  have hP' : (mainCellsOf s array (swapRoles xyz) none).map (fun r => r.map Prod.snd) =
      (List.range (mkSplit array (swapRoles xyz) none
          (resolveRegime s).2.pre_step_sample_fraction).dim_x).map
        (fun b => (List.range (mkSplit array (swapRoles xyz) none
            (resolveRegime s).2.pre_step_sample_fraction).dim_y).map
          (fun a => ((mainCell (resolveRegime s).2.cond_ind_test (resolveRegime s).1
            (mkSplit array xyz none (resolveRegime s).2.pre_step_sample_fraction)
            (preIndepSet s array xyz) a b none).1).2)) := by
    rw [hMC']
    exact grid_map_proj _ _ _ _
  have hP : (mainCellsOf s array xyz none).map (fun r => r.map Prod.snd) =
      (List.range (mkSplit array xyz none
          (resolveRegime s).2.pre_step_sample_fraction).dim_x).map
        (fun a => (List.range (mkSplit array xyz none
            (resolveRegime s).2.pre_step_sample_fraction).dim_y).map
          (fun b => ((mainCell (resolveRegime s).2.cond_ind_test (resolveRegime s).1
            (mkSplit array xyz none (resolveRegime s).2.pre_step_sample_fraction)
            (preIndepSet s array xyz) a b none).1).2)) := by
    rw [hMC]
    exact grid_map_proj _ _ _ _
  constructor
  · rw [calculate_eq s array (swapRoles xyz) none, calculate_eq s array xyz none]
    by_cases hg : ((resolveRegime s).1 && (resolveRegime s).2.fixed_thres_pre.isNone) = true
    · rw [if_pos hg, if_pos hg]
    · rw [if_neg hg, if_neg hg]
      have hmemS : ∀ q, q ∈ ((mainCellsOf s array (swapRoles xyz) none).map
            (fun r => r.map Prod.fst)).flatten ↔
          q ∈ ((mainCellsOf s array xyz none).map (fun r => r.map Prod.fst)).flatten := by
        intro q
        rw [hS', hS, hdX, hdY]
        exact flatten_grid_swap_mem _ _ _ q
      have hmemP : ∀ q, q ∈ ((mainCellsOf s array (swapRoles xyz) none).map
            (fun r => r.map Prod.snd)).flatten ↔
          q ∈ ((mainCellsOf s array xyz none).map (fun r => r.map Prod.snd)).flatten := by
        intro q
        rw [hP', hP, hdX, hdY]
        exact flatten_grid_swap_mem _ _ _ q
      have hmaxEq : listMax (((mainCellsOf s array (swapRoles xyz) none).map
            (fun r => r.map Prod.fst)).flatten.map (fun q => |q|)) =
          listMax (((mainCellsOf s array xyz none).map
            (fun r => r.map Prod.fst)).flatten.map (fun q => |q|)) := by
        apply listMax_congr
        intro q
        constructor
        · intro hq
          obtain ⟨v, hv, rfl⟩ := List.mem_map.1 hq
          exact List.mem_map.2 ⟨v, (hmemS v).1 hv, rfl⟩
        · intro hq
          obtain ⟨v, hv, rfl⟩ := List.mem_map.1 hq
          exact List.mem_map.2 ⟨v, (hmemS v).2 hv, rfl⟩
      have hminEq : listMin ((mainCellsOf s array (swapRoles xyz) none).map
            (fun r => r.map Prod.snd)).flatten =
          listMin ((mainCellsOf s array xyz none).map
            (fun r => r.map Prod.snd)).flatten :=
        listMin_congr hmemP
      rw [hmaxEq]
      cases hmx : listMax (((mainCellsOf s array xyz none).map
          (fun r => r.map Prod.fst)).flatten.map (fun q => |q|)) with
      | none => rfl
      | some mx =>
        dsimp only
        rw [hminEq, hdX, hdY]
        have harith : ((listMin ((mainCellsOf s array xyz none).map
              (fun r => r.map Prod.snd)).flatten).getD 0) *
            ((mkSplit array xyz none
              (resolveRegime s).2.pre_step_sample_fraction).dim_y : ℚ) *
            ((mkSplit array xyz none
              (resolveRegime s).2.pre_step_sample_fraction).dim_x : ℚ) =
            ((listMin ((mainCellsOf s array xyz none).map
              (fun r => r.map Prod.snd)).flatten).getD 0) *
            ((mkSplit array xyz none
              (resolveRegime s).2.pre_step_sample_fraction).dim_x : ℚ) *
            ((mkSplit array xyz none
              (resolveRegime s).2.pre_step_sample_fraction).dim_y : ℚ) := by ring
        rw [harith]
  · unfold testStatsMain
    rw [hS', hS]
    rw [transposeM_grid _ _ _ hdx']
    rw [hdX, hdY]

/-- Engine for the C9 counterexample: statistic = sum of the z block
(symmetric in x, y trivially), p-value = |sum x − sum y| (symmetric). -/
def engC9 : Engine :=
  ⟨"analytic", fun x y z _ _ _ _ => (z.flatten.sum, |x.flatten.sum - y.flatten.sum|)⟩

def sC9 : PairwiseMultCI := PairwiseMultCI.init engC9 (1/2) (1/4) none "analytic"

/-- dim_x = dim_y = 2, dim_z = 1, T = 4, split = 1.  The pre-step
classifies exactly (0,1) and (1,0) as independent, so the pairs (0,0) and
(1,1) have tied candidate sets (|indicesX| = |indicesY| = 1). -/
def arrC9 : Mat := [[0, 0, 0, 0], [1, 1, 0, 0], [0, 0, 0, 0], [1, 5, 0, 0], [0, 0, 0, 0]]

/-- C9 counterexample: the engine is symmetric in its first two
arguments, yet swapping the roles of X and Y changes the aggregated
statistic from 5 to 1 — at the tied pair (0,0) the original run
conditions on the Y-side component y₁ (main-step sum 5) while the swapped
run conditions on the X-side component x₁ (main-step sum 1). -/
theorem C9_counterexample :
    (∀ x y z t, sC9.cond_ind_test.run x y z none none none t =
      sC9.cond_ind_test.run y x z none none none t) ∧
    (calculate sC9 arrC9 [0, 0, 1, 1, 2] none).toOption.map (fun r => r.1.1) = some 5 ∧
    (calculate sC9 arrC9 (swapRoles [0, 0, 1, 1, 2]) none).toOption.map
      (fun r => r.1.1) = some 1 := by
  refine ⟨?_, ?_, ?_⟩
  · intro x y z t
    show (z.flatten.sum, |x.flatten.sum - y.flatten.sum|) =
      (z.flatten.sum, |y.flatten.sum - x.flatten.sum|)
    rw [abs_sub_comm]
  · with_unfolding_all rfl
  · with_unfolding_all rfl

/-- State for the C9 witness: constant-zero engine, empty independence
set, hence no ties anywhere. -/
def sC9w : PairwiseMultCI := PairwiseMultCI.init engZero 0 (1/2) none "analytic"

theorem C9_witness :
    calculate sC9w arrTwo (swapRoles [0, 1]) none = calculate sC9w arrTwo [0, 1] none ∧
    testStatsMain sC9w arrTwo (swapRoles [0, 1]) none =
      transposeM (testStatsMain sC9w arrTwo [0, 1] none) := by
  have hiset : preIndepSet sC9w arrTwo [0, 1] = [] := by with_unfolding_all rfl
  exact C9_amended_swap_symmetry sC9w arrTwo [0, 1]
    (fun x y z t => rfl)
    (by
      intro a b _
      rw [hiset]
      rfl)
    (by decide)

end PairwiseCI
